/-
  Verification of the UDP packet-plane runtime against its specification.

  Shallow embedding of:
  - the packet codec and link-health monitor (src/src/app/AppPacket.cpp),
  - the SPSC ring buffer (src/include/thread/LockFreeRingBuffer.hpp),
  - the latency sampler (src/include/stats/LatencyStats.hpp).

  Machine integers are modelled as Nat with explicit `% 2 ^ w` at the points
  where the C++ code performs a narrowing conversion or may wrap.
  Monotonic time points are modelled as Nat nanosecond counts.
  IEEE-754 double arithmetic in the latency sampler is modelled exactly:
  a double value is a rational, and each arithmetic operation rounds its
  exact rational result to 53 bits of precision with round-to-nearest,
  ties-to-even (subnormal and overflow ranges never arise at the values
  involved and are not modelled).
-/
import Mathlib

namespace AgentTeam

/-! ## Packet codec (AppPacket.cpp) -/

/-- CRC32 polynomial (IEEE 802.3), `CRC32_POLYNOMIAL` in AppPacket.cpp. -/
def CRC32_POLYNOMIAL : ℕ := 0xEDB88320

/-- One iteration of the inner bit loop of `AppPacket::calculateCrc32`. -/
def crc32Round (c : ℕ) : ℕ :=
  if c % 2 = 1 then (c / 2) ^^^ CRC32_POLYNOMIAL else c / 2

/-- Processing of one input byte by `AppPacket::calculateCrc32`:
xor the byte into the running crc, then run the bit loop eight times. -/
def crc32Step (crc b : ℕ) : ℕ := crc32Round^[8] (crc ^^^ b)

/-- `AppPacket::calculateCrc32`: init `0xFFFFFFFF`, bytewise loop,
final xor `0xFFFFFFFF`. -/
def calculateCrc32 (data : List ℕ) : ℕ :=
  (data.foldl crc32Step 0xFFFFFFFF) ^^^ 0xFFFFFFFF

/-- Little-endian byte serialization of a `uint16_t` value. -/
def le16 (x : ℕ) : List ℕ := [x % 256, x / 256 % 256]

/-- Little-endian byte serialization of a `uint32_t` value. -/
def le32 (x : ℕ) : List ℕ :=
  [x % 256, x / 256 % 256, x / 65536 % 256, x / 16777216 % 256]

/-- Little-endian read of a `uint16_t` from two bytes. -/
def rd16 (b0 b1 : ℕ) : ℕ := b0 + 256 * b1

/-- Little-endian read of a `uint32_t` from four bytes. -/
def rd32 (b0 b1 b2 b3 : ℕ) : ℕ :=
  b0 + 256 * b1 + 65536 * b2 + 16777216 * b3

/-- `AppPacket::AppPacketError` (AppPacket.hpp). -/
inductive APError where
  | none_
  | invalidDataPointer
  | dataTooLarge
  | bufferTooSmall
  | invalidPacket
  | crcMismatch
  | unstableCommunication
  | lossOfCommunication
deriving DecidableEq

/-- The member state of an `AppPacket` object.  `data` models the
non-owning payload view `m_data_ptr` (`none` = null pointer, `some bytes` =
the bytes reachable through the pointer).  Time points are Nat nanosecond
counts of the monotonic clock. -/
structure APState where
  unique_id : ℕ
  lifesign : ℕ
  data : Option (List ℕ)
  data_length : ℕ
  crc32 : ℕ
  rx_lifesign : ℕ
  rx_lifesign_prev : ℕ
  last_change_time : ℕ
  last_recv_time : ℕ
  comm_timeout_ms : ℕ
  expected_interval_ms : ℕ
  tolerance_us : ℕ
  last_interval_us : ℕ
  unstable_counter : ℕ
  comm_unstable : Bool
  error : APError
deriving DecidableEq

/-- The `AppPacket` constructor, with `t0` the construction instant
returned by `steady_clock::now()`: all counters zero, defaults
`APP_PACKET_COMM_TIMEOUT_MS = 1000`, `APP_PACKET_EXPECTED_INTERVAL_MS = 100`,
`APP_PACKET_INTERVAL_TOLERANCE_US = 5000`. -/
def freshPacket (t0 : ℕ) : APState :=
  { unique_id := 0, lifesign := 0, data := none, data_length := 0, crc32 := 0
    rx_lifesign := 0, rx_lifesign_prev := 0
    last_change_time := t0, last_recv_time := t0
    comm_timeout_ms := 1000
    expected_interval_ms := 100, tolerance_us := 5000
    last_interval_us := 0, unstable_counter := 0, comm_unstable := false
    error := APError.none_ }

/-- `AppPacket::setDataPointer`.  `buf = none` models a null pointer;
`len` is the separately supplied length argument
(`APP_PACKET_MAX_DATA_SIZE = 256`). -/
def setDataPointer (st : APState) (buf : Option (List ℕ)) (len : ℕ) : APState :=
  match buf with
  | none => { st with error := APError.invalidDataPointer
                      data := none, data_length := 0 }
  | some d =>
    if 256 < len then
      { st with error := APError.dataTooLarge, data := none, data_length := 0 }
    else
      { st with error := APError.none_, data := some d, data_length := len }

/-- `AppPacket::encode`.  `bufferValid = false` models a null output buffer.
Returns (bytes written, new state, bytes actually placed in the buffer).
The header stores `static_cast<uint16_t>(m_data_length)`; the payload is
copied only when the data pointer is non-null and the length is positive;
the CRC covers exactly the bytes written before it; on success the TX
lifesign post-increments with 16-bit wrap. -/
def encode (st : APState) (bufferValid : Bool) (buffer_size : ℕ) :
    ℕ × APState × Option (List ℕ) :=
  let total := 8 + st.data_length + 4
  if !bufferValid then
    (0, { st with error := APError.invalidDataPointer }, none)
  else if buffer_size < total then
    (0, { st with error := APError.bufferTooSmall }, none)
  else
    let pay : List ℕ :=
      match st.data with
      | some d => if 0 < st.data_length then d.take st.data_length else []
      | none => []
    let head := le32 st.unique_id ++ le16 st.lifesign ++ le16 (st.data_length % 65536)
    let crc := calculateCrc32 (head ++ pay)
    let bytes := head ++ pay ++ le32 crc
    (bytes.length,
     { st with crc32 := crc, error := APError.none_,
               lifesign := (st.lifesign + 1) % 65536 },
     some bytes)

/-- First phase of `AppPacket::updateReceivedLifesign` (lines 345-354):
measure the inter-arrival interval in microseconds — the `int64` count is
narrowed by `static_cast<uint32_t>` — and restamp `m_last_recv_time`. -/
def measureInterval (now : ℕ) (st : APState) : APState :=
  { st with last_interval_us := ((now - st.last_recv_time) / 1000) % 2 ^ 32,
            last_recv_time := now }

/-- Second phase of `AppPacket::updateReceivedLifesign` (lines 346-387):
interval-stability classification.  `expected_us` and `upper_bound` are
computed in `uint32_t` arithmetic and hence wrap at `2 ^ 32`; the lower
bound is `expected_us - m_tolerance_us` guarded by
`expected_us > m_tolerance_us`, else 0.  Out of tolerance: saturating
increment of the streak at `UINT16_MAX`, set the unstable flag, raise
`UnstableCommunication` only over `None`.  In tolerance: reset streak and
flag, clear the error only if it reads `UnstableCommunication`. -/
def stabilityCheck (st : APState) : APState :=
  let expected_us := st.expected_interval_ms * 1000 % 2 ^ 32
  let lower := if st.tolerance_us < expected_us then expected_us - st.tolerance_us else 0
  let upper := (expected_us + st.tolerance_us) % 2 ^ 32
  if st.last_interval_us < lower ∨ upper < st.last_interval_us then
    { st with
      unstable_counter :=
        if st.unstable_counter < 65535 then st.unstable_counter + 1
        else st.unstable_counter,
      comm_unstable := true,
      error := if st.error = APError.none_ then APError.unstableCommunication
               else st.error }
  else
    { st with unstable_counter := 0, comm_unstable := false,
              error := if st.error = APError.unstableCommunication then APError.none_
                       else st.error }

/-- Third phase of `AppPacket::updateReceivedLifesign` (lines 389-404):
shift the lifesign history; on a changed lifesign restamp
`m_last_change_time` and clear a `LossOfCommunication` error. -/
def lifesignTrack (now : ℕ) (st : APState) (lifesign : ℕ) : APState :=
  let st1 := { st with rx_lifesign_prev := st.rx_lifesign, rx_lifesign := lifesign }
  if lifesign ≠ st.rx_lifesign then
    { st1 with last_change_time := now,
               error := if st1.error = APError.lossOfCommunication then APError.none_
                        else st1.error }
  else st1

/-- `AppPacket::updateReceivedLifesign`, with `now` the instant returned by
`steady_clock::now()` at entry. -/
def updateReceivedLifesign (now : ℕ) (st : APState) (lifesign : ℕ) : APState :=
  lifesignTrack now (stabilityCheck (measureInterval now st)) lifesign

/-- The interval-measurement and stability-classification part of
`AppPacket::updateReceivedLifesign` (everything before the lifesign
tracking block). -/
def stabilityPhase (now : ℕ) (st : APState) : APState :=
  stabilityCheck (measureInterval now st)

/-- `AppPacket::decode`.  `buf = none` models a null input buffer; the
buffer size argument is the length of the byte list.  Check order follows
the source: null, size below header+footer, size below declared total,
declared length above 256; then header fields are stored, the link-health
update runs, the payload view and stored CRC are recorded, and only then is
the CRC recomputed and compared. -/
def decode (now : ℕ) (st : APState) (buf : Option (List ℕ)) : Bool × APState :=
  match buf with
  | none => (false, { st with error := APError.invalidDataPointer })
  | some b =>
    if b.length < 12 then (false, { st with error := APError.invalidPacket })
    else
      let uid := rd32 (b.getD 0 0) (b.getD 1 0) (b.getD 2 0) (b.getD 3 0)
      let ls := rd16 (b.getD 4 0) (b.getD 5 0)
      let dlen := rd16 (b.getD 6 0) (b.getD 7 0)
      if b.length < 8 + dlen + 4 then (false, { st with error := APError.invalidPacket })
      else if 256 < dlen then (false, { st with error := APError.dataTooLarge })
      else
        let st1 := { st with unique_id := uid, data_length := dlen }
        let st2 := updateReceivedLifesign now st1 ls
        let st3 := { st2 with data := if 0 < dlen then some ((b.drop 8).take dlen) else none }
        let stored := rd32 (b.getD (8 + dlen) 0) (b.getD (8 + dlen + 1) 0)
                           (b.getD (8 + dlen + 2) 0) (b.getD (8 + dlen + 3) 0)
        let st4 := { st3 with crc32 := stored }
        let computed := calculateCrc32 (b.take (8 + dlen))
        if computed ≠ stored then (false, { st4 with error := APError.crcMismatch })
        else (true, { st4 with error := APError.none_ })

/-- `AppPacket::isCommLost`, with `now` the instant returned by
`steady_clock::now()` in its body.  The elapsed millisecond count (an
`int64`) is narrowed by `static_cast<uint32_t>` before the comparison. -/
def isCommLost (now : ℕ) (st : APState) : Bool :=
  st.comm_timeout_ms ≤ ((now - st.last_change_time) / 1000000) % 2 ^ 32

/-- The wire frame `encode` emits for given id, lifesign and payload view:
header, payload, CRC32 over header and payload. -/
def wireFrame (uid ls : ℕ) (payload : List ℕ) : List ℕ :=
  let head := le32 uid ++ le16 ls ++ le16 (payload.length % 65536)
  head ++ payload ++ le32 (calculateCrc32 (head ++ payload))

/-! ## SPSC ring buffer (LockFreeRingBuffer.hpp) -/

/-- The state of a `LockFreeRingBuffer`: `Capacity` slots, each a
`(length, bytes)` pair, plus the producer and consumer indices.  The slot
array is default-constructed; its initial contents are never read before
being written. -/
structure RBState where
  slots : List (ℕ × List ℕ)
  writeIdx : ℕ
  readIdx : ℕ
deriving DecidableEq

/-- A freshly constructed `LockFreeRingBuffer` with capacity `C`. -/
def rbInit (C : ℕ) : RBState := ⟨List.replicate C (0, []), 0, 0⟩

/-- `LockFreeRingBuffer::push` with template parameters `Max` and `C`:
reject an over-long packet, reject when `(write+1) mod C` equals `read`,
otherwise store the slot (the `memcpy` copies exactly `length` bytes) and
publish the advanced write index. -/
def rbPush (Max C : ℕ) (st : RBState) (data : List ℕ) (len : ℕ) : Bool × RBState :=
  if Max < len then (false, st)
  else
    let nextWrite := (st.writeIdx + 1) % C
    if nextWrite = st.readIdx then (false, st)
    else (true, ⟨st.slots.set st.writeIdx (len, data.take len), nextWrite, st.readIdx⟩)

/-- `LockFreeRingBuffer::pop` with capacity `C`.  Returns
(success, new state, value written to the `actualLength` out-parameter if
any, bytes copied to the output buffer if any).  On an empty buffer the
out-parameter is untouched; on a too-small output region the out-parameter
has already been set to the stored length, but the read index does not
advance and no slot is modified. -/
def rbPop (C : ℕ) (st : RBState) (maxLength : ℕ) :
    Bool × RBState × Option ℕ × Option (List ℕ) :=
  if st.readIdx = st.writeIdx then (false, st, none, none)
  else
    let slot := st.slots.getD st.readIdx (0, [])
    if maxLength < slot.1 then (false, st, some slot.1, none)
    else
      (true, ⟨st.slots, st.writeIdx, (st.readIdx + 1) % C⟩,
       some slot.1, some (slot.2.take slot.1))

/-- A sequence of pushes with no intervening pops, threaded through an
accumulated (state, success count) pair. -/
def rbPushSeq (Max C : ℕ) (pkts : List (List ℕ × ℕ)) (acc : RBState × ℕ) : RBState × ℕ :=
  pkts.foldl
    (fun a p =>
      let r := rbPush Max C a.1 p.1 p.2
      (r.2, a.2 + if r.1 then 1 else 0))
    acc

/-- A sequence of pushes with no intervening pops, starting from a fresh
buffer; returns the final state and the number of pushes that succeeded. -/
def rbPushAll (Max C : ℕ) (pkts : List (List ℕ × ℕ)) : RBState × ℕ :=
  rbPushSeq Max C pkts (rbInit C, 0)

/-! ## Latency sampler (LatencyStats.hpp) -/

/-- The state of a `LatencyStats` sampler: the circular sample buffer
(zero-filled by the constructor), the write index and the total count. -/
structure LatState where
  samples : List ℕ
  writeIdx : ℕ
  count : ℕ
deriving DecidableEq

/-- A freshly constructed `LatencyStats` with capacity `C`. -/
def latInit (C : ℕ) : LatState := ⟨List.replicate C 0, 0, 0⟩

/-- `LatencyStats::recordSample`: store at the write index, publish
`(idx+1) mod C`, bump the total count. -/
def recordSample (C : ℕ) (st : LatState) (v : ℕ) : LatState :=
  ⟨st.samples.set st.writeIdx v, (st.writeIdx + 1) % C, st.count + 1⟩

/-- Recording a list of samples in order from a fresh sampler. -/
def recordAll (C : ℕ) (xs : List ℕ) : LatState := xs.foldl (recordSample C) (latInit C)

/-- The snapshot `LatencyStats::computeStats` copies before sorting:
empty when no samples; the first `min(count, C)` positions when the ring
has not wrapped (`count ≤ C`); otherwise the segment from the write index
to the end followed by the segment from the start to the write index. -/
def snapshot (C : ℕ) (st : LatState) : List ℕ :=
  if st.count = 0 then []
  else
    let n := if st.count < C then st.count else C
    if st.count ≤ C then st.samples.take n
    else st.samples.drop st.writeIdx ++ st.samples.take st.writeIdx

/-! ### Exact model of IEEE-754 double arithmetic

`LatencyStats` computes its statistics in `double`.  A finite positive
double is `m * 2 ^ e` with a 53-bit significand `2 ^ 52 ≤ m < 2 ^ 53`;
each C++ arithmetic operation produces the exact result rounded to that
precision with round-to-nearest, ties-to-even.  `Dy` below is that
representation (with `⟨0, 0⟩` for zero), kept canonical so that structural
equality is value equality.  Subnormal and overflow ranges never arise at
the values involved and are not modelled. -/

/-- Fuel-driven base-2 logarithm on naturals (structural recursion so that
kernel reduction works): `nlog2Aux fuel n` is `⌊log2 n⌋` for `1 ≤ n ≤ fuel`. -/
def nlog2Aux : ℕ → ℕ → ℕ
  | 0, _ => 0
  | fuel + 1, n => if n ≤ 1 then 0 else nlog2Aux fuel (n / 2) + 1

/-- `⌊log2 n⌋` for `n ≥ 1`. -/
def nlog2 (n : ℕ) : ℕ := nlog2Aux n n

/-- A nonnegative IEEE-754 double in canonical form: value `m * 2 ^ e`,
with `m = 0` (and then `e = 0`) or `2 ^ 52 ≤ m < 2 ^ 53`. -/
structure Dy where
  m : ℕ
  e : ℤ
deriving DecidableEq

/-- The rational value of a `Dy`. -/
def Dy.toRat (x : Dy) : ℚ := (x.m : ℚ) * (2 : ℚ) ^ x.e

/-- Round `(N / D) * 2 ^ exp` to 53 significant bits with
round-to-nearest ties-to-even, assuming `2 ^ 52 ≤ N / D < 2 ^ 54`. -/
def roundCore (N D : ℕ) (exp : ℤ) : Dy :=
  let Q := N / D
  let R := N % D
  if Q < 2 ^ 53 then
    let m := Q + (if D < 2 * R then 1 else if 2 * R < D then 0 else Q % 2)
    if m = 2 ^ 53 then ⟨2 ^ 52, exp + 1⟩ else ⟨m, exp⟩
  else
    let Q2 := N / (2 * D)
    let R2 := N % (2 * D)
    let m := Q2 + (if 2 * D < 2 * R2 then 1 else if 2 * R2 < 2 * D then 0 else Q2 % 2)
    if m = 2 ^ 53 then ⟨2 ^ 52, exp + 2⟩ else ⟨m, exp + 1⟩

/-- The double nearest to `(num / den) * 2 ^ e` (round-to-nearest
ties-to-even), for `num ≥ 0`, `den ≥ 1`. -/
def roundRat (num den : ℕ) (e : ℤ) : Dy :=
  if num = 0 ∨ den = 0 then ⟨0, 0⟩
  else
    let k : ℤ := 53 + (nlog2 den : ℤ) - (nlog2 num : ℤ)
    roundCore (num * 2 ^ k.toNat) (den * 2 ^ (-k).toNat) (e - k)

/-- Double addition (both arguments nonnegative). -/
def dyAdd (x y : Dy) : Dy :=
  if x.m = 0 then y
  else if y.m = 0 then x
  else
    let mn := min x.e y.e
    roundRat (x.m * 2 ^ (x.e - mn).toNat + y.m * 2 ^ (y.e - mn).toNat) 1 mn

/-- Double multiplication. -/
def dyMul (x y : Dy) : Dy := roundRat (x.m * y.m) 1 (x.e + y.e)

/-- Double division. -/
def dyDiv (x y : Dy) : Dy := roundRat x.m y.m (x.e - y.e)

/-- The double nearest to a natural number (`static_cast<double>`;
exact below `2 ^ 53`). -/
def dyOfNat (n : ℕ) : Dy := roundRat n 1 0

/-- The double nearest to the decimal literal `num / den`, as the C++
compiler converts source literals such as `99.9`. -/
def dyLit (num den : ℕ) : Dy := roundRat num den 0

/-- `std::ceil` of a nonnegative double followed by the cast to `size_t`. -/
def dyCeil (x : Dy) : ℕ :=
  if 0 ≤ x.e then x.m * 2 ^ x.e.toNat
  else (x.m + 2 ^ (-x.e).toNat - 1) / 2 ^ (-x.e).toNat

/-- The double nearest to the source literal `99.9`. -/
def lit999 : Dy := dyLit 999 10

/-- The double nearest to the source literal `99.99`. -/
def lit9999 : Dy := dyLit 9999 100

/-- `LatencyStats::percentile` (nearest-rank on the sorted snapshot, in
double arithmetic): `rank = (p / 100.0) * size` with each operation
rounded, `idx = ceil(rank)` clamped to `[1, size]`, report
`sorted[idx - 1] / 1000.0`. -/
def percentileD (sorted : List ℕ) (p : Dy) : Dy :=
  if sorted.isEmpty then ⟨0, 0⟩
  else
    let n := sorted.length
    let rank := dyMul (dyDiv p (dyOfNat 100)) (dyOfNat n)
    let idx0 := dyCeil rank
    let idx1 := if idx0 = 0 then 1 else idx0
    let idx := if n < idx1 then n else idx1
    dyDiv (dyOfNat (sorted.getD (idx - 1) 0)) (dyOfNat 1000)

/-- The mean-loop accumulator of `LatencyStats::computeStats`: each sample
is converted to microseconds (`val = sorted[i] / 1000.0`) and added to the
running double sum. -/
def meanFold (sorted : List ℕ) : Dy :=
  sorted.foldl (fun acc v => dyAdd acc (dyDiv (dyOfNat v) (dyOfNat 1000))) ⟨0, 0⟩

/-- The fields of `LatencyStats::Result` that the claims are about
(`stdev_us` involves `sqrt`, whose result is irrational, and is not
modelled). -/
structure StatsResult where
  count : ℕ
  min_us : Dy
  max_us : Dy
  mean_us : Dy
  p50_us : Dy
  p95_us : Dy
  p99_us : Dy
  p999_us : Dy
  p9999_us : Dy
deriving DecidableEq

/-- `LatencyStats::computeStats`: zero result when no samples, else sort
the snapshot ascending and compute min, max, mean and the five
nearest-rank percentiles, all in double arithmetic. -/
def computeStats (C : ℕ) (st : LatState) : StatsResult :=
  if st.count = 0 then ⟨0, ⟨0, 0⟩, ⟨0, 0⟩, ⟨0, 0⟩, ⟨0, 0⟩, ⟨0, 0⟩, ⟨0, 0⟩, ⟨0, 0⟩, ⟨0, 0⟩⟩
  else
    let sorted := (snapshot C st).mergeSort (fun a b => decide (a ≤ b))
    ⟨st.count,
     dyDiv (dyOfNat (sorted.headD 0)) (dyOfNat 1000),
     dyDiv (dyOfNat (sorted.getLastD 0)) (dyOfNat 1000),
     dyDiv (meanFold sorted) (dyOfNat sorted.length),
     percentileD sorted (dyOfNat 50),
     percentileD sorted (dyOfNat 95),
     percentileD sorted (dyOfNat 99),
     percentileD sorted lit999,
     percentileD sorted lit9999⟩

/-- Modelled from the spec (nearest-rank percentile, exact arithmetic):
with sorted samples, percentile `p` is `sorted[index - 1]` with
`index = min(n, max(1, ceil(p * n / 100)))`, reported in microseconds.
Stated for comparison against the double-arithmetic `percentileD`. -/
def idealNearestRank (sorted : List ℕ) (p : ℚ) : ℚ :=
  let n := sorted.length
  let idx := min n (max 1 (Int.toNat ⌈p * (n : ℚ) / 100⌉))
  (sorted.getD (idx - 1) 0 : ℚ) / 1000

set_option maxRecDepth 1000000

/-! ## Helper lemmas -/

theorem updateRL_unique_id (now : ℕ) (st : APState) (ls : ℕ) :
    (updateReceivedLifesign now st ls).unique_id = st.unique_id := by
  dsimp only [updateReceivedLifesign, lifesignTrack, stabilityCheck, measureInterval]
  split_ifs <;> rfl

theorem updateRL_data (now : ℕ) (st : APState) (ls : ℕ) :
    (updateReceivedLifesign now st ls).data = st.data := by
  dsimp only [updateReceivedLifesign, lifesignTrack, stabilityCheck, measureInterval]
  split_ifs <;> rfl

theorem updateRL_data_length (now : ℕ) (st : APState) (ls : ℕ) :
    (updateReceivedLifesign now st ls).data_length = st.data_length := by
  dsimp only [updateReceivedLifesign, lifesignTrack, stabilityCheck, measureInterval]
  split_ifs <;> rfl

theorem updateRL_crc32 (now : ℕ) (st : APState) (ls : ℕ) :
    (updateReceivedLifesign now st ls).crc32 = st.crc32 := by
  dsimp only [updateReceivedLifesign, lifesignTrack, stabilityCheck, measureInterval]
  split_ifs <;> rfl

theorem updateRL_rx_lifesign (now : ℕ) (st : APState) (ls : ℕ) :
    (updateReceivedLifesign now st ls).rx_lifesign = ls := by
  dsimp only [updateReceivedLifesign, lifesignTrack, stabilityCheck, measureInterval]
  split_ifs <;> rfl

theorem updateRL_last_change_time (now : ℕ) (st : APState) (ls : ℕ) :
    (updateReceivedLifesign now st ls).last_change_time
      = if ls = st.rx_lifesign then st.last_change_time else now := by
  dsimp only [updateReceivedLifesign, lifesignTrack, stabilityCheck, measureInterval]
  split_ifs <;> simp_all

theorem updateRL_stability_fields (now : ℕ) (st : APState) (ls : ℕ) :
    (updateReceivedLifesign now st ls).comm_unstable = (stabilityPhase now st).comm_unstable ∧
    (updateReceivedLifesign now st ls).unstable_counter = (stabilityPhase now st).unstable_counter ∧
    (updateReceivedLifesign now st ls).last_interval_us = (stabilityPhase now st).last_interval_us := by
  dsimp only [updateReceivedLifesign, stabilityPhase, lifesignTrack]
  split_ifs <;> exact ⟨rfl, rfl, rfl⟩

/-! ## Claim C4 -/

/-- Claim C4: `calculateCrc32` implements standard IEEE-802.3 CRC-32
(polynomial `0xEDB88320` in reflected form, initial value `0xFFFFFFFF`,
final xor `0xFFFFFFFF`): the empty input yields `0x00000000`, the single
byte `0x61` yields `0xE8B7BE43`, and the nine ASCII bytes of
`"123456789"` yield `0xCBF43926`. -/
theorem c4_crc32_test_vectors :
    calculateCrc32 [] = 0x00000000 ∧
    calculateCrc32 [0x61] = 0xE8B7BE43 ∧
    calculateCrc32 [49, 50, 51, 52, 53, 54, 55, 56, 57] = 0xCBF43926 := by
  decide

/-! ## Claim C1 -/

/-- Claim C1 (code bug evaluation): decoding a 12-byte frame whose stored
CRC (0) does not match the recomputed CRC is rejected with `CrcMismatch`,
yet it updates the link-health state of the receiving packet: the received
lifesign becomes 7, the receive instant is restamped to `now = 999`, and
the unstable streak advances — because `decode` runs
`updateReceivedLifesign` before verifying the CRC. -/
theorem c1_crc_mismatch_updates_link_health :
    (decode 999 (freshPacket 0) (some [1, 0, 0, 0, 7, 0, 0, 0, 0, 0, 0, 0])).1 = false ∧
    (decode 999 (freshPacket 0) (some [1, 0, 0, 0, 7, 0, 0, 0, 0, 0, 0, 0])).2.error
      = APError.crcMismatch ∧
    (decode 999 (freshPacket 0) (some [1, 0, 0, 0, 7, 0, 0, 0, 0, 0, 0, 0])).2.rx_lifesign = 7 ∧
    (freshPacket 0).rx_lifesign = 0 ∧
    (decode 999 (freshPacket 0) (some [1, 0, 0, 0, 7, 0, 0, 0, 0, 0, 0, 0])).2.last_recv_time
      = 999 ∧
    (freshPacket 0).last_recv_time = 0 ∧
    (decode 999 (freshPacket 0) (some [1, 0, 0, 0, 7, 0, 0, 0, 0, 0, 0, 0])).2.unstable_counter
      = 1 ∧
    (freshPacket 0).unstable_counter = 0 := by
  decide

/-! ## Claim C3 -/

/-- Claim C3 (counterexample): after `setDataPointer` with a valid 257-byte
payload, `encode` into a big-enough buffer does not return 0 bytes with
error `DataTooLarge` as claimed: it returns 12 bytes (an empty-payload
frame) and resets the error to `None`.  The `DataTooLarge` rejection
happened in `setDataPointer`, which also cleared the stored view. -/
theorem c3_counterexample :
    (setDataPointer (freshPacket 0) (some (List.replicate 257 65)) 257).error
      = APError.dataTooLarge ∧
    (encode (setDataPointer (freshPacket 0) (some (List.replicate 257 65)) 257) true 64).1
      = 12 ∧
    (encode (setDataPointer (freshPacket 0) (some (List.replicate 257 65)) 257) true 64).2.1.error
      = APError.none_ := by
  decide

/-- Claim C3 (amended): for every payload view longer than 256 bytes,
`setDataPointer` itself fails with `DataTooLarge` and clears the stored
view (null pointer, zero length); a subsequent `encode` with a buffer of
at least 12 bytes does not emit the oversized payload: it writes a 12-byte
empty-payload frame and sets the error to `None`. -/
theorem c3_amended (st : APState) (d : List ℕ) (len bsize : ℕ)
    (hlen : 256 < len) (hbs : 12 ≤ bsize) :
    (setDataPointer st (some d) len).error = APError.dataTooLarge ∧
    (setDataPointer st (some d) len).data = none ∧
    (setDataPointer st (some d) len).data_length = 0 ∧
    (encode (setDataPointer st (some d) len) true bsize).1 = 12 ∧
    (encode (setDataPointer st (some d) len) true bsize).2.1.error = APError.none_ ∧
    ((encode (setDataPointer st (some d) len) true bsize).2.2).map List.length = some 12 := by
  have h2 : ¬ bsize < 8 + 0 + 4 := by omega
  simp [setDataPointer, hlen, encode, le16, le32, h2]

/-- Witness for `c3_amended` at a concrete 257-byte payload. -/
theorem c3_amended_witness :
    (256 < 257 ∧ 12 ≤ 64) ∧
    ((setDataPointer (freshPacket 0) (some (List.replicate 257 65)) 257).data_length = 0 ∧
     (encode (setDataPointer (freshPacket 0) (some (List.replicate 257 65)) 257) true 64).1
       = 12) :=
  ⟨⟨by decide, by decide⟩,
   ⟨(c3_amended (freshPacket 0) (List.replicate 257 65) 257 64 (by decide) (by decide)).2.2.1,
    (c3_amended (freshPacket 0) (List.replicate 257 65) 257 64 (by decide) (by decide)).2.2.2.1⟩⟩

/-! ## Claim C10 -/

/-- Claim C10: for every non-empty ring-buffer state, `pop` with an output
region smaller than the stored head length returns false without changing
the state (no read-index advance, no slot modification) — though the
`actualLength` out-parameter is set to the stored length — and a later
`pop` with a large-enough region returns that same head packet. -/
theorem c10_pop_too_small (C : ℕ) (st : RBState) (maxLength maxLength2 : ℕ)
    (hne : st.readIdx ≠ st.writeIdx)
    (hsmall : maxLength < (st.slots.getD st.readIdx (0, [])).1)
    (hbig : (st.slots.getD st.readIdx (0, [])).1 ≤ maxLength2) :
    rbPop C st maxLength = (false, st, some (st.slots.getD st.readIdx (0, [])).1, none) ∧
    rbPop C st maxLength2
      = (true, ⟨st.slots, st.writeIdx, (st.readIdx + 1) % C⟩,
         some (st.slots.getD st.readIdx (0, [])).1,
         some ((st.slots.getD st.readIdx (0, [])).2.take
                 (st.slots.getD st.readIdx (0, [])).1)) := by
  simp only [List.getD, List.get?_eq_getElem?] at hsmall hbig
  constructor
  · simp [rbPop, hne, hsmall]
  · simp [rbPop, hne, Nat.not_lt.2 hbig]

/-- Witness for `c10_pop_too_small` on a concrete two-slot buffer holding
one 3-byte packet. -/
theorem c10_pop_too_small_witness :
    ((0 : ℕ) ≠ 1 ∧ 2 < 3 ∧ 3 ≤ 8) ∧
    rbPop 2 ⟨[(3, [10, 20, 30]), (0, [])], 1, 0⟩ 2
      = (false, ⟨[(3, [10, 20, 30]), (0, [])], 1, 0⟩, some 3, none) :=
  ⟨⟨by decide, by decide, by decide⟩,
   (c10_pop_too_small 2 ⟨[(3, [10, 20, 30]), (0, [])], 1, 0⟩ 2 8
     (by decide) (by decide) (by decide)).1⟩

/-! ## Claim C5 -/

/-- Claim C5 (counterexample to the claim as stated): with
`expected_interval_ms = 5 000 000` and `tolerance_us = 0`, the product
`E = expected_interval_ms * 1000 = 5 * 10 ^ 9` wraps to `705 032 704` in the
32-bit arithmetic of `updateReceivedLifesign`, so a measured interval of
`705 032 704 µs` is classified in tolerance (flag cleared, streak reset)
although the formula of the claim, `max(0, E - T) ≤ interval`, classifies
it out of tolerance. -/
theorem c5_counterexample :
    (stabilityPhase 705032704000
        { freshPacket 0 with expected_interval_ms := 5000000, tolerance_us := 0 }).last_interval_us
      = 705032704 ∧
    (stabilityPhase 705032704000
        { freshPacket 0 with expected_interval_ms := 5000000, tolerance_us := 0 }).comm_unstable
      = false ∧
    (stabilityPhase 705032704000
        { freshPacket 0 with expected_interval_ms := 5000000, tolerance_us := 0 }).unstable_counter
      = 0 ∧
    ¬ (5000000 * 1000 - 0 ≤ 705032704) := by
  decide

/-- Claim C5 (amended): provided `expected_interval_ms * 1000 + tolerance_us`
does not overflow 32 bits (the code computes the bounds in `uint32_t`),
every receive-side update classifies the measured interval in tolerance
iff `max(0, E - T) ≤ interval_us ≤ E + T` (Nat subtraction is the
truncated `max(0, E - T)`); out of tolerance it increments the streak
saturating at 65535, sets the unstable flag and raises
`UnstableCommunication` only over `None`; in tolerance it resets the
streak, clears the flag and clears the error only if it reads
`UnstableCommunication`.  The last three conjuncts carry the phase result
over to the full `updateReceivedLifesign`. -/
theorem c5_amended (st : APState) (now ls : ℕ)
    (hov : st.expected_interval_ms * 1000 + st.tolerance_us < 2 ^ 32)
    (hctr : st.unstable_counter < 65536) :
    ((stabilityPhase now st).comm_unstable = false ↔
      (st.expected_interval_ms * 1000 - st.tolerance_us
          ≤ (stabilityPhase now st).last_interval_us ∧
       (stabilityPhase now st).last_interval_us
          ≤ st.expected_interval_ms * 1000 + st.tolerance_us)) ∧
    ((stabilityPhase now st).comm_unstable = true →
      (stabilityPhase now st).unstable_counter = min (st.unstable_counter + 1) 65535 ∧
      (stabilityPhase now st).error
        = (if st.error = APError.none_ then APError.unstableCommunication else st.error)) ∧
    ((stabilityPhase now st).comm_unstable = false →
      (stabilityPhase now st).unstable_counter = 0 ∧
      (stabilityPhase now st).error
        = (if st.error = APError.unstableCommunication then APError.none_ else st.error)) ∧
    (updateReceivedLifesign now st ls).comm_unstable = (stabilityPhase now st).comm_unstable ∧
    (updateReceivedLifesign now st ls).unstable_counter
      = (stabilityPhase now st).unstable_counter ∧
    (updateReceivedLifesign now st ls).last_interval_us
      = (stabilityPhase now st).last_interval_us := by
  obtain ⟨hu1, hu2, hu3⟩ := updateRL_stability_fields now st ls
  refine ⟨?_, ?_, ?_, hu1, hu2, hu3⟩ <;>
  · dsimp only [stabilityPhase, stabilityCheck, measureInterval]
    rw [Nat.mod_eq_of_lt (show st.expected_interval_ms * 1000 < 2 ^ 32 by omega),
        Nat.mod_eq_of_lt hov]
    split_ifs <;> dsimp only [] <;>
      first
        | (exact fun hflag : False => hflag.elim)
        | (exact fun hflag : false = true => absurd hflag (by simp))
        | (exact fun hflag : true = false => absurd hflag (by simp))
        | (exact iff_of_true rfl (by omega))
        | (exact iff_of_true True.intro (by omega))
        | (exact iff_of_false (by simp) (by omega))
        | (exact fun hflag => ⟨by split_ifs <;> omega, rfl⟩)
        | (exact fun hflag => ⟨by omega, rfl⟩)

/-- Witness for `c5_amended` at the default configuration and a 100 ms
interval, classified in tolerance. -/
theorem c5_amended_witness :
    ((freshPacket 0).expected_interval_ms * 1000 + (freshPacket 0).tolerance_us < 2 ^ 32) ∧
    ((freshPacket 0).unstable_counter < 65536) ∧
    (stabilityPhase 100000000 (freshPacket 0)).comm_unstable = false :=
  ⟨by decide, by decide,
   ((c5_amended (freshPacket 0) 100000000 1 (by decide) (by decide)).1).mpr
     ⟨by decide, by decide⟩⟩

/-! ## Claim C6 -/

/-- Claim C6 (counterexample to the claim as stated): with the default
1000 ms timeout and no lifesign change since instant 0, at
`now = 2 ^ 32` milliseconds the elapsed count, narrowed by
`static_cast<uint32_t>`, wraps to 0 and `isCommLost` returns false even
though far more than `comm_timeout_ms` of monotonic time has elapsed. -/
theorem c6_counterexample :
    isCommLost (2 ^ 32 * 1000000) (freshPacket 0) = false ∧
    (freshPacket 0).comm_timeout_ms * 1000000
      ≤ 2 ^ 32 * 1000000 - (freshPacket 0).last_change_time := by
  decide

/-- Claim C6 (amended): provided the elapsed time since the last lifesign
change is below `2 ^ 32` milliseconds (the code narrows the elapsed
millisecond count to `uint32_t`), `isCommLost` returns true iff at least
`comm_timeout_ms` milliseconds of monotonic time have elapsed since
`last_change_time`; `updateReceivedLifesign` restamps `last_change_time`
to the current instant exactly when the received lifesign differs from the
previously received one; the default timeout is 1000 ms. -/
theorem c6_amended (st : APState) (now ls : ℕ)
    (hwrap : (now - st.last_change_time) / 1000000 < 2 ^ 32) :
    (isCommLost now st = true ↔
      st.comm_timeout_ms * 1000000 ≤ now - st.last_change_time) ∧
    ((updateReceivedLifesign now st ls).last_change_time
      = if ls = st.rx_lifesign then st.last_change_time else now) ∧
    (freshPacket 0).comm_timeout_ms = 1000 := by
  refine ⟨?_, updateRL_last_change_time now st ls, rfl⟩
  unfold isCommLost
  rw [Nat.mod_eq_of_lt hwrap]
  simp only [decide_eq_true_eq]
  exact Nat.le_div_iff_mul_le (show 0 < 1000000 by norm_num)

/-- Witness for `c6_amended`: a fresh monitor at 2 seconds with no
lifesign change reports the link lost. -/
theorem c6_amended_witness :
    ((2000000000 - (freshPacket 0).last_change_time) / 1000000 < 2 ^ 32) ∧
    isCommLost 2000000000 (freshPacket 0) = true :=
  ⟨by decide, (c6_amended (freshPacket 0) 2000000000 0 (by decide)).1.mpr (by decide)⟩

/-! ## Claim C7 -/

theorem rbPushSeq_fill (pkts : List (List ℕ × ℕ)) :
    ∀ (st : RBState) (c : ℕ), (∀ p ∈ pkts, p.2 ≤ 2048) → st.readIdx = 0 →
      st.writeIdx + pkts.length ≤ 1023 →
      (rbPushSeq 2048 1024 pkts (st, c)).2 = c + pkts.length ∧
      (rbPushSeq 2048 1024 pkts (st, c)).1.writeIdx = st.writeIdx + pkts.length ∧
      (rbPushSeq 2048 1024 pkts (st, c)).1.readIdx = 0 := by
  induction pkts with
  | nil => intro st c _ hr _; simp [rbPushSeq, hr]
  | cons p rest ih =>
    intro st c hlen hr hcap
    have hp : ¬ 2048 < p.2 := by
      have := hlen p (by simp)
      omega
    have hcap2 : st.writeIdx + (rest.length + 1) ≤ 1023 := by
      simpa using hcap
    have hmod : (st.writeIdx + 1) % 1024 = st.writeIdx + 1 :=
      Nat.mod_eq_of_lt (by omega)
    have hne : (st.writeIdx + 1) % 1024 ≠ st.readIdx := by
      rw [hmod, hr]; omega
    have step : rbPush 2048 1024 st p.1 p.2
        = (true, ⟨st.slots.set st.writeIdx (p.2, p.1.take p.2),
                  (st.writeIdx + 1) % 1024, st.readIdx⟩) := by
      simp [rbPush, hp, hne]
    have hrec := ih ⟨st.slots.set st.writeIdx (p.2, p.1.take p.2),
                    (st.writeIdx + 1) % 1024, st.readIdx⟩ (c + 1)
      (fun q hq => hlen q (by simp [hq])) hr (by simp [hmod]; omega)
    simp only [rbPushSeq, List.foldl_cons, step, eq_self_iff_true, if_true,
      List.length_cons] at hrec ⊢
    exact ⟨by omega, by omega, hrec.2.2⟩

/-- Claim C7: for a packet of admissible length, `push` fails iff
`(write + 1) mod 1024 = read` at the moment of call; `push` also rejects
any length above `MaxPacketSize = 2048`; and from an empty buffer with no
intervening pops, of 1024 pushes of valid-length packets the first 1023
all succeed and the 1024th fails — one slot is sacrificed to distinguish
empty from full. -/
theorem c7_spsc_fullness :
    (∀ (st : RBState) (data : List ℕ) (len : ℕ), len ≤ 2048 →
      ((rbPush 2048 1024 st data len).1 = false ↔
        (st.writeIdx + 1) % 1024 = st.readIdx)) ∧
    (∀ (st : RBState) (data : List ℕ) (len : ℕ), 2048 < len →
      (rbPush 2048 1024 st data len).1 = false) ∧
    (∀ pkts : List (List ℕ × ℕ), (∀ p ∈ pkts, p.2 ≤ 2048) → pkts.length = 1024 →
      (rbPushAll 2048 1024 (pkts.take 1023)).2 = 1023 ∧
      (rbPushAll 2048 1024 pkts).2 = 1023) := by
  refine ⟨?_, ?_, ?_⟩
  · intro st data len h
    have hnl : ¬ 2048 < len := by omega
    by_cases hc : (st.writeIdx + 1) % 1024 = st.readIdx <;> simp [rbPush, hnl, hc]
  · intro st data len h
    simp [rbPush, h]
  · intro pkts hlen hn
    have htake : (pkts.take 1023).length = 1023 := by
      rw [List.length_take]; omega
    have h1 := rbPushSeq_fill (pkts.take 1023) (rbInit 1024) 0
      (fun p hp => hlen p (List.mem_of_mem_take hp)) rfl (by simp [rbInit, htake])
    rw [htake] at h1
    refine ⟨by simpa [rbPushAll] using h1.1, ?_⟩
    obtain ⟨q, hq⟩ : ∃ q, pkts.drop 1023 = [q] := by
      apply List.length_eq_one.mp
      rw [List.length_drop]; omega
    have hqm : ¬ 2048 < q.2 := by
      have : q ∈ pkts := by
        have : q ∈ pkts.drop 1023 := by simp [hq]
        exact List.mem_of_mem_drop this
      have := hlen q this
      omega
    have hsplit : pkts = pkts.take 1023 ++ [q] := by
      conv_lhs => rw [← List.take_append_drop 1023 pkts]
      rw [hq]
    rw [rbPushAll, hsplit, rbPushSeq, List.foldl_append]
    have hA : List.foldl
        (fun a p => ((rbPush 2048 1024 a.1 p.1 p.2).2,
          a.2 + if (rbPush 2048 1024 a.1 p.1 p.2).1 then 1 else 0))
        (rbInit 1024, 0) (pkts.take 1023)
        = rbPushSeq 2048 1024 (pkts.take 1023) (rbInit 1024, 0) := rfl
    rw [hA]
    set A := rbPushSeq 2048 1024 (pkts.take 1023) (rbInit 1024, 0) with hAdef
    have hfail : rbPush 2048 1024 A.1 q.1 q.2 = (false, A.1) := by
      have hw : A.1.writeIdx = 1023 := by simpa [rbInit] using h1.2.1
      have hr : A.1.readIdx = 0 := h1.2.2
      simp [rbPush, hqm, hw, hr]
    simp [hfail, h1.1]

/-- Witness for `c7_spsc_fullness`: the fullness criterion on a fresh
buffer, and 1024 one-byte pushes succeeding exactly 1023 times. -/
theorem c7_spsc_fullness_witness :
    ((1 : ℕ) ≤ 2048 ∧
     (∀ p ∈ List.replicate 1024 (([0] : List ℕ), 1), p.2 ≤ 2048) ∧
     (List.replicate 1024 (([0] : List ℕ), 1)).length = 1024) ∧
    ((rbPush 2048 1024 (rbInit 1024) [0] 1).1 = false ↔
      ((rbInit 1024).writeIdx + 1) % 1024 = (rbInit 1024).readIdx) ∧
    (rbPushAll 2048 1024 (List.replicate 1024 ([0], 1))).2 = 1023 :=
  ⟨⟨by decide,
    by intro p hp; rw [List.eq_of_mem_replicate hp]; decide,
    List.length_replicate 1024 _⟩,
   c7_spsc_fullness.1 (rbInit 1024) [0] 1 (by decide),
   (c7_spsc_fullness.2.2 (List.replicate 1024 ([0], 1))
     (by intro p hp; rw [List.eq_of_mem_replicate hp]; decide)
     (List.length_replicate 1024 _)).2⟩

/-! ## Claim C9 -/

/-- Rotating a list after setting the element at the rotation point equals
rotating first and setting the head. -/
theorem rotate_set_self (l : List ℕ) (w : ℕ) (v : ℕ) (hw : w < l.length) :
    (l.set w v).rotate w = (l.rotate w).set 0 v := by
  apply List.ext_getElem
  · simp
  · intro i h1 h2
    have hlen : (l.set w v).length = l.length := by simp
    have hi : i < l.length := by simpa using h2
    have key : (i + w) % l.length = w → i = 0 := by
      intro hcontra
      by_cases hiw : i + w < l.length
      · rw [Nat.mod_eq_of_lt hiw] at hcontra
        omega
      · have h2l : i + w - l.length < l.length := by omega
        have : (i + w) % l.length = i + w - l.length := by
          rw [Nat.mod_eq_sub_mod (by omega), Nat.mod_eq_of_lt h2l]
        rw [this] at hcontra
        omega
    simp only [List.getElem_rotate, List.getElem_set, hlen]
    by_cases hz : i = 0
    · simp [hz, Nat.mod_eq_of_lt hw]
    · have hcond : ¬ w = (i + w) % l.length := fun hcon => hz (key hcon.symm)
      simp [hcond, hz, Ne.symm hz]

/-- State characterization of `recordAll`: the count equals the number of
recorded samples, the write index is the count modulo the capacity, and
the sample buffer, rotated by the write index, is the last `C` entries of
the zero-initialized buffer followed by the recorded samples. -/
theorem recordAll_spec (C : ℕ) (hC : 0 < C) (xs : List ℕ) :
    (recordAll C xs).count = xs.length ∧
    (recordAll C xs).writeIdx = xs.length % C ∧
    (recordAll C xs).samples.length = C ∧
    (recordAll C xs).samples.rotate (xs.length % C)
      = (List.replicate C 0 ++ xs).drop xs.length := by
  induction xs using List.reverseRecOn with
  | nil => simp [recordAll, latInit]
  | append_singleton ys v ih =>
    obtain ⟨ih1, ih2, ih3, ih4⟩ := ih
    have hfold : recordAll C (ys ++ [v]) = recordSample C (recordAll C ys) v := by
      simp [recordAll, List.foldl_append]
    have hmlt : ys.length % C < C := Nat.mod_lt _ hC
    have hlen2 : ((recordAll C ys).samples.set (ys.length % C) v).length = C := by
      simp [ih3]
    refine ⟨?_, ?_, ?_, ?_⟩
    · simp [hfold, recordSample, ih1]
    · simp only [hfold, recordSample, List.length_append, List.length_cons,
        List.length_nil, Nat.zero_add]
      rw [ih2, Nat.mod_add_mod]
    · simp [hfold, recordSample, ih3]
    · simp only [hfold, recordSample, ih2, List.length_append, List.length_cons,
        List.length_nil, Nat.zero_add]
      have e1 : ((recordAll C ys).samples.set (ys.length % C) v).rotate ((ys.length + 1) % C)
          = ((recordAll C ys).samples.set (ys.length % C) v).rotate (ys.length + 1) := by
        have h : (ys.length + 1) % C
            = (ys.length + 1) % ((recordAll C ys).samples.set (ys.length % C) v).length := by
          rw [hlen2]
        rw [h, List.rotate_mod]
      have e3 : ((recordAll C ys).samples.set (ys.length % C) v).rotate ys.length
          = ((recordAll C ys).samples.set (ys.length % C) v).rotate (ys.length % C) := by
        conv_lhs => rw [← List.rotate_mod]
        rw [hlen2]
      have e4 : ((recordAll C ys).samples.set (ys.length % C) v).rotate (ys.length % C)
          = ((recordAll C ys).samples.rotate (ys.length % C)).set 0 v :=
        rotate_set_self _ _ v (by rw [ih3]; exact hmlt)
      rw [e1, ← List.rotate_rotate, e3, e4, ih4]
      obtain ⟨a, t, hat⟩ : ∃ a t, (List.replicate C 0 ++ ys).drop ys.length = a :: t := by
        have hlennz : ((List.replicate C 0 ++ ys).drop ys.length).length = C := by
          simp
        cases hcase : (List.replicate C 0 ++ ys).drop ys.length with
        | nil => rw [hcase] at hlennz; simp at hlennz; omega
        | cons a t => exact ⟨a, t, rfl⟩
      rw [hat, List.set_cons_zero]
      have hrot : (v :: t).rotate 1 = t ++ [v] := by
        have := List.rotate_cons_succ t v 0
        simpa using this
      rw [hrot]
      have hdropsplit : ((List.replicate C 0 ++ ys) ++ [v]).drop (ys.length + 1)
          = (List.replicate C 0 ++ ys).drop (ys.length + 1) ++ [v] := by
        rw [List.drop_append_eq_append_drop]
        have : ys.length + 1 - (List.replicate C 0 ++ ys).length = 0 := by
          simp; omega
        rw [this]
        simp
      have htail : (List.replicate C 0 ++ ys).drop (ys.length + 1) = t := by
        have h1 : (List.replicate C 0 ++ ys).drop (ys.length + 1)
            = ((List.replicate C 0 ++ ys).drop ys.length).drop 1 := by
          rw [List.drop_drop]
        rw [h1, hat]
        simp
      rw [show List.replicate C 0 ++ (ys ++ [v]) = (List.replicate C 0 ++ ys) ++ [v] by simp,
          hdropsplit, htail]
/-- Snapshot characterization: recording samples sequentially from a fresh
sampler, when at most `Capacity` samples were recorded the snapshot is
exactly those samples in order; otherwise it is exactly the last
`Capacity` samples in insertion order. -/
theorem snapshot_recordAll (C : ℕ) (xs : List ℕ) (hC : 0 < C) :
    (xs.length ≤ C → snapshot C (recordAll C xs) = xs) ∧
    (C ≤ xs.length → snapshot C (recordAll C xs) = xs.drop (xs.length - C)) := by
  obtain ⟨h1, h2, h3, h4⟩ := recordAll_spec C hC xs
  have hdrop : (List.replicate C 0 ++ xs).drop xs.length
      = (List.replicate C 0).drop xs.length ++ xs.drop (xs.length - C) := by
    rw [List.drop_append_eq_append_drop, List.length_replicate]
  have case_lt : xs.length < C → snapshot C (recordAll C xs) = xs := by
    intro hlt
    have hxd : xs.drop (xs.length - C) = xs := by
      rw [show xs.length - C = 0 by omega, List.drop_zero]
    have hmod : xs.length % C = xs.length := Nat.mod_eq_of_lt hlt
    rw [hmod] at h4
    have hrot : (recordAll C xs).samples.rotate xs.length
        = (recordAll C xs).samples.drop xs.length ++ (recordAll C xs).samples.take xs.length :=
      List.rotate_eq_drop_append_take (by omega)
    rw [hrot, hdrop, hxd, List.drop_replicate] at h4
    have hinj := List.append_inj h4 (by simp [h3])
    rcases Nat.eq_zero_or_pos xs.length with hz | hpos
    · have hxs : xs = [] := List.length_eq_zero.mp hz
      subst hxs
      simp [snapshot, h1]
    · unfold snapshot
      rw [h1]
      simp only [if_neg (by omega : ¬ xs.length = 0), if_pos hlt,
        if_pos (by omega : xs.length ≤ C)]
      exact hinj.2
  have case_eq : xs.length = C → snapshot C (recordAll C xs) = xs := by
    intro heq
    have hmod : xs.length % C = 0 := by rw [heq]; exact Nat.mod_self C
    rw [hmod, List.rotate_zero] at h4
    have hsamp : (recordAll C xs).samples = xs := by
      rw [h4, hdrop]
      rw [show xs.length - C = 0 by omega, List.drop_zero, List.drop_replicate,
        show C - xs.length = 0 by omega]
      simp
    unfold snapshot
    rw [h1]
    simp only [if_neg (by omega : ¬ xs.length = 0), if_neg (by omega : ¬ xs.length < C),
      if_pos (by omega : xs.length ≤ C)]
    rw [hsamp, ← heq, List.take_length]
  have case_gt : C < xs.length → snapshot C (recordAll C xs) = xs.drop (xs.length - C) := by
    intro hgt
    have hmlt : xs.length % C < C := Nat.mod_lt _ hC
    unfold snapshot
    rw [h1, h2]
    simp only [if_neg (by omega : ¬ xs.length = 0), if_neg (by omega : ¬ xs.length ≤ C)]
    have hrot : (recordAll C xs).samples.rotate (xs.length % C)
        = (recordAll C xs).samples.drop (xs.length % C)
          ++ (recordAll C xs).samples.take (xs.length % C) :=
      List.rotate_eq_drop_append_take (by omega)
    rw [hrot, hdrop] at h4
    rw [List.drop_replicate, show C - xs.length = 0 by omega] at h4
    simpa using h4
  refine ⟨fun hle => ?_, fun hge => ?_⟩
  · rcases Nat.lt_or_ge xs.length C with hlt | hge2
    · exact case_lt hlt
    · exact case_eq (by omega)
  · rcases Nat.lt_or_ge C xs.length with hgt | hle2
    · exact case_gt hgt
    · rw [show xs.length - C = 0 by omega, List.drop_zero]
      exact case_eq (by omega)

/-- Claim C9: recording samples sequentially from a fresh sampler, when at
most `Capacity` samples were recorded the snapshot is exactly those
samples in order (positions `[0, total)`); when at least `Capacity` were
recorded the snapshot — the segment from the write index to the end
followed by the segment from the start to the write index — is exactly the
last `Capacity` samples in insertion order. -/
theorem c9_latency_wrap (C : ℕ) (xs : List ℕ) (hC : 0 < C) :
    (xs.length ≤ C → snapshot C (recordAll C xs) = xs) ∧
    (C ≤ xs.length → snapshot C (recordAll C xs) = xs.drop (xs.length - C)) :=
  snapshot_recordAll C xs hC

/-- Witness for `c9_latency_wrap`: capacity 3, five samples recorded, the
snapshot is the last three. -/
theorem c9_latency_wrap_witness :
    (0 < 3 ∧ (3 : ℕ) ≤ 5) ∧
    snapshot 3 (recordAll 3 [10, 20, 30, 40, 50]) = [30, 40, 50] :=
  ⟨⟨by decide, by decide⟩, by
    have h := (c9_latency_wrap 3 [10, 20, 30, 40, 50] (by decide)).2 (by decide)
    simpa using h⟩

/-! ## Claim C2 -/




/-- Xor of two 32-bit values is a 32-bit value. -/
theorem xor_lt_32 {x y : ℕ} (hx : x < 2 ^ 32) (hy : y < 2 ^ 32) : x ^^^ y < 2 ^ 32 :=
  Nat.bitwise_lt_two_pow hx hy

/-- The CRC bit loop keeps the running value below `2 ^ 32`. -/
theorem crc32Round_lt {c : ℕ} (hc : c < 2 ^ 32) : crc32Round c < 2 ^ 32 := by
  unfold crc32Round CRC32_POLYNOMIAL
  split_ifs
  · exact xor_lt_32 (by omega) (by norm_num)
  · omega

/-- The CRC byte step keeps the running value below `2 ^ 32`. -/
theorem crc32Step_lt {crc b : ℕ} (hc : crc < 2 ^ 32) (hb : b < 2 ^ 32) :
    crc32Step crc b < 2 ^ 32 := by
  unfold crc32Step
  have key : ∀ (n : ℕ) (c : ℕ), c < 2 ^ 32 → crc32Round^[n] c < 2 ^ 32 := by
    intro n
    induction n with
    | zero => intro c h; simpa using h
    | succ k ih =>
      intro c h
      rw [Function.iterate_succ_apply]
      exact ih _ (crc32Round_lt h)
  exact key 8 _ (xor_lt_32 hc hb)

/-- The CRC of a frame of 32-bit values is a 32-bit value. -/
theorem calculateCrc32_lt (l : List ℕ) (hl : ∀ b ∈ l, b < 2 ^ 32) :
    calculateCrc32 l < 2 ^ 32 := by
  unfold calculateCrc32
  have key : ∀ (l2 : List ℕ) (init : ℕ), (∀ b ∈ l2, b < 2 ^ 32) → init < 2 ^ 32 →
      l2.foldl crc32Step init < 2 ^ 32 := by
    intro l2
    induction l2 with
    | nil => intro init _ h; simpa using h
    | cons x rest ih =>
      intro init hmem h
      rw [List.foldl_cons]
      exact ih _ (fun b hb => hmem b (by simp [hb]))
        (crc32Step_lt h (hmem x (by simp)))
  exact xor_lt_32 (key l 0xFFFFFFFF hl (by norm_num)) (by norm_num)

/-- Claim C2: round-trip.  For every `unique_id`, starting lifesign and
payload of at most 256 bytes, encoding into a big-enough buffer writes
exactly `12 + N` bytes (the wire frame), and decoding those bytes with a
fresh `AppPacket` succeeds and yields the same `unique_id`, a received
lifesign equal to the lifesign the sender held at encode time,
`data_length = N`, a payload view equal to the original payload (absent
when `N = 0`, as the decoder nulls the view), and a stored CRC equal to
the CRC recomputed over the first `8 + N` bytes of the frame. -/
theorem c2_roundtrip (uid ls : ℕ) (payload : List ℕ) (t0 t1 now bsize : ℕ)
    (huid : uid < 2 ^ 32) (hls : ls < 65536) (hN : payload.length ≤ 256)
    (hbytes : ∀ b ∈ payload, b < 256) (hbs : 12 + payload.length ≤ bsize) :
    (encode (setDataPointer { freshPacket t0 with unique_id := uid, lifesign := ls }
        (some payload) payload.length) true bsize).1 = 12 + payload.length ∧
    (encode (setDataPointer { freshPacket t0 with unique_id := uid, lifesign := ls }
        (some payload) payload.length) true bsize).2.2 = some (wireFrame uid ls payload) ∧
    (wireFrame uid ls payload).length = 12 + payload.length ∧
    (decode now (freshPacket t1) (some (wireFrame uid ls payload))).1 = true ∧
    (decode now (freshPacket t1) (some (wireFrame uid ls payload))).2.unique_id = uid ∧
    (decode now (freshPacket t1) (some (wireFrame uid ls payload))).2.rx_lifesign = ls ∧
    (decode now (freshPacket t1) (some (wireFrame uid ls payload))).2.data_length
      = payload.length ∧
    (decode now (freshPacket t1) (some (wireFrame uid ls payload))).2.data
      = (if payload.length = 0 then none else some payload) ∧
    (decode now (freshPacket t1) (some (wireFrame uid ls payload))).2.crc32
      = calculateCrc32 ((wireFrame uid ls payload).take (8 + payload.length)) := by
  -- abbreviations
  set N := payload.length with hNdef
  have hmodN : N % 65536 = N := Nat.mod_eq_of_lt (by omega)
  have hhead : (le32 uid ++ le16 ls ++ le16 (N % 65536)).length = 8 := by
    simp [le32, le16]
  have hheadpay : ((le32 uid ++ le16 ls ++ le16 (N % 65536)) ++ payload).length = 8 + N := by
    simp [le32, le16]; omega
  have hblen : (wireFrame uid ls payload).length = 12 + N := by
    simp [wireFrame, le32, le16]; omega
  -- the CRC of the frame body
  have hcrclt : calculateCrc32 ((le32 uid ++ le16 ls ++ le16 (N % 65536)) ++ payload) < 2 ^ 32 := by
    apply calculateCrc32_lt
    intro b hb
    simp only [List.mem_append, le32, le16, List.mem_cons, List.not_mem_nil, or_false] at hb
    rcases hb with (h | h) | h
    · omega
    · omega
    · have := hbytes b h
      omega
  set crcval := calculateCrc32 ((le32 uid ++ le16 ls ++ le16 (N % 65536)) ++ payload)
    with hcrcdef
  -- encode side
  have hnle : ¬ (256 : ℕ) < N := by omega
  have hst0 : setDataPointer { freshPacket t0 with unique_id := uid, lifesign := ls }
        (some payload) N
      = { freshPacket t0 with
          unique_id := uid
          lifesign := ls
          error := APError.none_
          data := some payload
          data_length := N } := by
    simp [setDataPointer, hnle]
  have hpayN : (if 0 < N then payload.take N else []) = payload := by
    rcases Nat.eq_zero_or_pos N with hz | hpos
    · have hpl : payload = [] := List.length_eq_zero.mp (by omega)
      rw [if_neg (by omega), hpl]
    · rw [if_pos hpos, hNdef, List.take_length]
  have hencode : encode (setDataPointer { freshPacket t0 with unique_id := uid, lifesign := ls }
        (some payload) N) true bsize
      = ((wireFrame uid ls payload).length,
         { freshPacket t0 with
           unique_id := uid
           lifesign := (ls + 1) % 65536
           error := APError.none_
           data := some payload
           data_length := N
           crc32 := crcval },
         some (wireFrame uid ls payload)) := by
    rw [hst0]
    simp only [encode, Bool.not_true, Bool.false_eq_true, if_false,
      if_neg (show ¬ bsize < 8 + N + 4 by omega), hpayN, wireFrame, hcrcdef]
  -- decode side facts
  have g0 : (wireFrame uid ls payload).getD 0 0 = uid % 256 := rfl
  have g1 : (wireFrame uid ls payload).getD 1 0 = uid / 256 % 256 := rfl
  have g2 : (wireFrame uid ls payload).getD 2 0 = uid / 65536 % 256 := rfl
  have g3 : (wireFrame uid ls payload).getD 3 0 = uid / 16777216 % 256 := rfl
  have g4 : (wireFrame uid ls payload).getD 4 0 = ls % 256 := rfl
  have g5 : (wireFrame uid ls payload).getD 5 0 = ls / 256 % 256 := rfl
  have g6 : (wireFrame uid ls payload).getD 6 0 = N % 65536 % 256 := rfl
  have g7 : (wireFrame uid ls payload).getD 7 0 = N % 65536 / 256 % 256 := rfl
  have huidrt : rd32 (uid % 256) (uid / 256 % 256) (uid / 65536 % 256) (uid / 16777216 % 256)
      = uid := by unfold rd32; omega
  have hlsrt : rd16 (ls % 256) (ls / 256 % 256) = ls := by unfold rd16; omega
  have hdlenrt : rd16 (N % 65536 % 256) (N % 65536 / 256 % 256) = N := by
    unfold rd16; omega
  have hbsplit : wireFrame uid ls payload
      = ((le32 uid ++ le16 ls ++ le16 (N % 65536)) ++ payload) ++ le32 crcval := by
    simp [wireFrame, hcrcdef]
  have hbsplit2 : wireFrame uid ls payload
      = (le32 uid ++ le16 ls ++ le16 (N % 65536)) ++ (payload ++ le32 crcval) := by
    simp [wireFrame, hcrcdef]
  have hf : ∀ i : ℕ, (wireFrame uid ls payload).getD (8 + N + i) 0 = (le32 crcval).getD i 0 := by
    intro i
    rw [hbsplit, List.getD_append_right _ _ _ _ (by rw [hheadpay]; omega), hheadpay]
    congr 1
    omega
  have hf0 : (wireFrame uid ls payload).getD (8 + N) 0 = crcval % 256 := by
    have := hf 0
    simpa using this
  have hf1 : (wireFrame uid ls payload).getD (8 + N + 1) 0 = crcval / 256 % 256 := hf 1
  have hf2 : (wireFrame uid ls payload).getD (8 + N + 2) 0 = crcval / 65536 % 256 := hf 2
  have hf3 : (wireFrame uid ls payload).getD (8 + N + 3) 0 = crcval / 16777216 % 256 := hf 3
  have hstored : rd32 (crcval % 256) (crcval / 256 % 256) (crcval / 65536 % 256)
      (crcval / 16777216 % 256) = crcval := by unfold rd32; omega
  have htake : (wireFrame uid ls payload).take (8 + N)
      = (le32 uid ++ le16 ls ++ le16 (N % 65536)) ++ payload := by
    rw [hbsplit]
    exact List.take_left' hheadpay
  have hview : ((wireFrame uid ls payload).drop 8).take N = payload := by
    rw [hbsplit2, List.drop_left' hhead, hNdef, List.take_left]
  have hdec : decode now (freshPacket t1) (some (wireFrame uid ls payload))
      = (true, { updateReceivedLifesign now
            { freshPacket t1 with unique_id := uid, data_length := N } ls with
            data := if 0 < N then some payload else none
            crc32 := crcval
            error := APError.none_ }) := by
    simp only [decode, g0, g1, g2, g3, g4, g5, g6, g7, huidrt, hlsrt, hdlenrt,
      hf0, hf1, hf2, hf3, hstored, hblen, htake, hview,
      if_neg (show ¬ 12 + N < 12 by omega),
      if_neg (show ¬ 12 + N < 8 + N + 4 by omega),
      if_neg hnle, ← hcrcdef,
      if_neg (show ¬ crcval ≠ crcval by simp)]
  -- assemble the conjuncts
  refine ⟨?_, ?_, ?_, ?_, ?_, ?_, ?_, ?_, ?_⟩
  · rw [hencode, hblen]
  · rw [hencode]
  · exact hblen
  · rw [hdec]
  · rw [hdec]
    exact updateRL_unique_id now _ ls
  · rw [hdec]
    exact updateRL_rx_lifesign now _ ls
  · rw [hdec]
    rw [show ({ updateReceivedLifesign now
          { freshPacket t1 with unique_id := uid, data_length := N } ls with
          data := if 0 < N then some payload else none
          crc32 := crcval
          error := APError.none_ } : APState).data_length
        = (updateReceivedLifesign now
            { freshPacket t1 with unique_id := uid, data_length := N } ls).data_length
      from rfl]
    rw [updateRL_data_length]
  · rw [hdec]
    rcases Nat.eq_zero_or_pos N with hz | hpos
    · simp [hz]
    · rw [if_pos hpos, if_neg (by omega)]
  · rw [hdec, htake]
/-- Witness for `c2_roundtrip`: the spec scenario with id `0x12345678`,
lifesign 0 and the 15-byte payload of the end-to-end example. -/
theorem c2_roundtrip_witness :
    ((0x12345678 : ℕ) < 2 ^ 32 ∧ (0 : ℕ) < 65536 ∧
     ([65, 103, 101, 110, 116, 32, 84, 101, 97, 109, 32, 84, 101, 115, 116] : List ℕ).length
       ≤ 256 ∧
     (∀ b ∈ ([65, 103, 101, 110, 116, 32, 84, 101, 97, 109, 32, 84, 101, 115, 116] : List ℕ),
       b < 256) ∧
     12 + ([65, 103, 101, 110, 116, 32, 84, 101, 97, 109, 32, 84, 101, 115, 116] : List ℕ).length
       ≤ 64) ∧
    (decode 1000 (freshPacket 0)
      (some (wireFrame 0x12345678 0
        [65, 103, 101, 110, 116, 32, 84, 101, 97, 109, 32, 84, 101, 115, 116]))).1 = true ∧
    (decode 1000 (freshPacket 0)
      (some (wireFrame 0x12345678 0
        [65, 103, 101, 110, 116, 32, 84, 101, 97, 109, 32, 84, 101, 115, 116]))).2.rx_lifesign
      = 0 :=
  ⟨⟨by decide, by decide, by decide, by decide, by decide⟩,
   (c2_roundtrip 0x12345678 0
      [65, 103, 101, 110, 116, 32, 84, 101, 97, 109, 32, 84, 101, 115, 116] 0 0 1000 64
      (by decide) (by decide) (by decide) (by decide) (by decide)).2.2.2.1,
   (c2_roundtrip 0x12345678 0
      [65, 103, 101, 110, 116, 32, 84, 101, 97, 109, 32, 84, 101, 115, 116] 0 0 1000 64
      (by decide) (by decide) (by decide) (by decide) (by decide)).2.2.2.2.2.1⟩


/-! ## Claim C8 -/

theorem nlog2Aux_bounds : ∀ (fuel n : ℕ), 1 ≤ n → n ≤ fuel →
    2 ^ nlog2Aux fuel n ≤ n ∧ n < 2 ^ (nlog2Aux fuel n + 1) := by
  intro fuel
  induction fuel with
  | zero => intro n h1 h2; omega
  | succ k ih =>
    intro n h1 h2
    by_cases hle : n ≤ 1
    · have : n = 1 := by omega
      subst this
      simp [nlog2Aux]
    · have h2n : 2 ≤ n := by omega
      have hrec := ih (n / 2) (by omega) (by omega)
      have hstep : nlog2Aux (k + 1) n = nlog2Aux k (n / 2) + 1 := by
        simp [nlog2Aux, hle]
      rw [hstep]
      constructor
      · have : 2 ^ (nlog2Aux k (n / 2) + 1) = 2 * 2 ^ nlog2Aux k (n / 2) := by ring
        rw [this]
        omega
      · have : 2 ^ (nlog2Aux k (n / 2) + 1 + 1) = 2 * 2 ^ (nlog2Aux k (n / 2) + 1) := by ring
        rw [this]
        omega

theorem nlog2_bounds (n : ℕ) (h : 1 ≤ n) :
    2 ^ nlog2 n ≤ n ∧ n < 2 ^ (nlog2 n + 1) :=
  nlog2Aux_bounds n n h le_rfl

theorem nlog2_le_of_lt {n k : ℕ} (h1 : 1 ≤ n) (h2 : n < 2 ^ (k + 1)) : nlog2 n ≤ k := by
  by_contra hcon
  have hk : k + 1 ≤ nlog2 n := by omega
  have := (nlog2_bounds n h1).1
  have hmono : (2 : ℕ) ^ (k + 1) ≤ 2 ^ nlog2 n := Nat.pow_le_pow_right (by norm_num) hk
  omega
theorem pow_lt_pow_iff_exp {m n : ℕ} : (2 : ℕ) ^ m < 2 ^ n ↔ m < n :=
  Nat.pow_lt_pow_iff_right (by norm_num)

theorem roundCore_exact (D w tp : ℕ) (exp : ℤ) (hD : 1 ≤ D) (hw1 : 1 ≤ w) (hw2 : w < 2 ^ 53)
    (hlow : 2 ^ 52 < w * 2 ^ tp) (hhigh : w * 2 ^ tp < 2 ^ 54) :
    roundCore (D * (w * 2 ^ tp)) D exp
      = ⟨w * 2 ^ (52 - nlog2 w), exp + ((tp : ℤ) - ((52 : ℤ) - (nlog2 w : ℤ)))⟩ := by
  have hwb := nlog2_bounds w hw1
  have hLw : nlog2 w ≤ 52 := nlog2_le_of_lt hw1 hw2
  have hQ : D * (w * 2 ^ tp) / D = w * 2 ^ tp := Nat.mul_div_cancel_left _ (by omega)
  have hR : D * (w * 2 ^ tp) % D = 0 := Nat.mul_mod_right D _
  have hpow1 : (2 : ℕ) ^ (nlog2 w + tp) ≤ w * 2 ^ tp := by
    rw [pow_add]
    exact Nat.mul_le_mul_right _ hwb.1
  have hpow2 : w * 2 ^ tp < 2 ^ (nlog2 w + 1 + tp) := by
    rw [pow_add]
    exact (Nat.mul_lt_mul_right (Nat.pow_pos (by norm_num))).mpr hwb.2
  unfold roundCore
  rw [hQ, hR]
  by_cases hc : w * 2 ^ tp < 2 ^ 53
  · -- tp = 52 - nlog2 w
    have h1 : nlog2 w + tp < 53 := by
      have : (2:ℕ) ^ (nlog2 w + tp) < 2 ^ 53 := lt_of_le_of_lt hpow1 hc
      exact pow_lt_pow_iff_exp.mp this
    have h2 : 52 < nlog2 w + 1 + tp := by
      have : (2:ℕ) ^ 52 < 2 ^ (nlog2 w + 1 + tp) := lt_trans hlow hpow2
      exact pow_lt_pow_iff_exp.mp this
    have htp : tp = 52 - nlog2 w := by omega
    rw [if_pos hc]
    have hcond1 : ¬ D < 2 * 0 := by omega
    have hcond2 : 2 * 0 < D := by omega
    simp only [Nat.mul_zero, hcond1, if_false, hcond2, if_true, Nat.add_zero]
    rw [if_neg (by omega : ¬ w * 2 ^ tp = 2 ^ 53)]
    refine congrArg₂ Dy.mk ?_ ?_
    · rw [htp]
    · omega
  · -- tp = 53 - nlog2 w
    have hge : 2 ^ 53 ≤ w * 2 ^ tp := by omega
    have h1 : nlog2 w + tp < 54 := by
      have : (2:ℕ) ^ (nlog2 w + tp) < 2 ^ 54 := lt_of_le_of_lt hpow1 hhigh
      exact pow_lt_pow_iff_exp.mp this
    have h2 : 53 < nlog2 w + 1 + tp := by
      have : (2:ℕ) ^ 53 < 2 ^ (nlog2 w + 1 + tp) :=
        lt_of_le_of_lt hge hpow2
      exact pow_lt_pow_iff_exp.mp this
    have htp : tp = 53 - nlog2 w := by omega
    have htp1 : 1 ≤ tp := by omega
    have hsplit : D * (w * 2 ^ tp) = 2 * D * (w * 2 ^ (tp - 1)) := by
      have : 2 ^ tp = 2 * 2 ^ (tp - 1) := by
        rw [← pow_succ']
        congr 1
        omega
      rw [this]
      ring
    have hQ2 : D * (w * 2 ^ tp) / (2 * D) = w * 2 ^ (tp - 1) := by
      rw [hsplit]
      exact Nat.mul_div_cancel_left _ (by omega)
    have hR2 : D * (w * 2 ^ tp) % (2 * D) = 0 := by
      rw [hsplit]
      exact Nat.mul_mod_right _ _
    rw [if_neg hc, hQ2, hR2]
    have hcond1 : ¬ 2 * D < 2 * 0 := by omega
    have hcond2 : 2 * 0 < 2 * D := by omega
    simp only [Nat.mul_zero, hcond1, if_false, hcond2, if_true, Nat.add_zero]
    have hm : ¬ w * 2 ^ (tp - 1) = 2 ^ 53 := by
      have l2 : w * 2 ^ (tp - 1) < 2 ^ (nlog2 w + 1 + (tp - 1)) := by
        rw [pow_add]
        exact (Nat.mul_lt_mul_right (Nat.pow_pos (by norm_num))).mpr hwb.2
      have : nlog2 w + 1 + (tp - 1) ≤ 53 := by omega
      have : w * 2 ^ (tp - 1) < 2 ^ 53 :=
        lt_of_lt_of_le l2 (Nat.pow_le_pow_right (by norm_num) this)
      omega
    rw [if_neg hm]
    refine congrArg₂ Dy.mk ?_ ?_
    · rw [show tp - 1 = 52 - nlog2 w by omega]
    · omega
theorem roundRat_exact (num den w : ℕ) (e f : ℤ) (p q : ℕ)
    (hnum : 1 ≤ num) (hden : 1 ≤ den) (hw1 : 1 ≤ w) (hw2 : w < 2 ^ 53)
    (hpq : (p : ℤ) - q = e - f)
    (hNat : num * 2 ^ p = den * (w * 2 ^ q)) :
    roundRat num den e = ⟨w * 2 ^ (52 - nlog2 w), f - 52 + nlog2 w⟩ := by
  have ha := nlog2_bounds num hnum
  have hb := nlog2_bounds den hden
  have hnz : ¬ (num = 0 ∨ den = 0) := by omega
  unfold roundRat
  rw [if_neg hnz]
  dsimp only []
  set a := nlog2 num with hadef
  set b := nlog2 den with hbdef
  set k : ℤ := 53 + (b : ℤ) - (a : ℤ) with hkdef
  set kp := k.toNat with hkpdef
  set kn := (-k).toNat with hkndef
  have hkfacts : (kp : ℤ) - kn = k ∧ (kp = 0 ∨ kn = 0) := by
    constructor <;> omega
  have hexp1 : a + kp = 53 + b + kn := by omega
  -- lower and upper bounds on the scaled ratio
  have hNlow : den * 2 ^ kn * 2 ^ 52 < num * 2 ^ kp := by
    have l1 : den * 2 ^ kn * 2 ^ 52 < 2 ^ (b + 1) * 2 ^ kn * 2 ^ 52 := by
      have := hb.2
      have hpos : 0 < 2 ^ kn * 2 ^ 52 := by positivity
      calc den * 2 ^ kn * 2 ^ 52 = den * (2 ^ kn * 2 ^ 52) := by ring
        _ < 2 ^ (b + 1) * (2 ^ kn * 2 ^ 52) := by
            exact (Nat.mul_lt_mul_right hpos).mpr hb.2
        _ = 2 ^ (b + 1) * 2 ^ kn * 2 ^ 52 := by ring
    have l2 : (2 : ℕ) ^ (b + 1) * 2 ^ kn * 2 ^ 52 = 2 ^ a * 2 ^ kp := by
      calc (2 : ℕ) ^ (b + 1) * 2 ^ kn * 2 ^ 52 = 2 ^ (b + 1 + kn + 52) := by ring
        _ = 2 ^ (a + kp) := by rw [show b + 1 + kn + 52 = a + kp by omega]
        _ = 2 ^ a * 2 ^ kp := by ring
    have l3 : 2 ^ a * 2 ^ kp ≤ num * 2 ^ kp :=
      Nat.mul_le_mul_right _ ha.1
    omega
  have hNhigh : num * 2 ^ kp < den * 2 ^ kn * 2 ^ 54 := by
    have l1 : num * 2 ^ kp < 2 ^ (a + 1) * 2 ^ kp := by
      exact (Nat.mul_lt_mul_right (Nat.pow_pos (by norm_num))).mpr ha.2
    have l2 : (2 : ℕ) ^ (a + 1) * 2 ^ kp = 2 ^ b * 2 ^ kn * 2 ^ 54 := by
      calc (2 : ℕ) ^ (a + 1) * 2 ^ kp = 2 ^ (a + 1 + kp) := by ring
        _ = 2 ^ (b + kn + 54) := by rw [show a + 1 + kp = b + kn + 54 by omega]
        _ = 2 ^ b * 2 ^ kn * 2 ^ 54 := by ring
    have l3 : (2 : ℕ) ^ b * 2 ^ kn * 2 ^ 54 ≤ den * 2 ^ kn * 2 ^ 54 :=
      Nat.mul_le_mul_right _ (Nat.mul_le_mul_right _ hb.1)
    omega
  -- the exact quotient
  set t : ℤ := f - e + k with htdef
  set tp := t.toNat with htpdef
  set tn := (-t).toNat with htndef
  have htfacts : (tp : ℤ) - tn = t ∧ (tp = 0 ∨ tn = 0) := by
    constructor <;> omega
  have hexps : kp + tn + q = p + (kn + tp) := by omega
  have hE0 : num * 2 ^ kp * 2 ^ tn * 2 ^ q = den * 2 ^ kn * (w * 2 ^ tp) * 2 ^ q := by
    have lhs : num * 2 ^ kp * 2 ^ tn * 2 ^ q = num * 2 ^ p * 2 ^ (kn + tp) := by
      calc num * 2 ^ kp * 2 ^ tn * 2 ^ q = num * 2 ^ (kp + tn + q) := by ring
        _ = num * 2 ^ (p + (kn + tp)) := by rw [hexps]
        _ = num * 2 ^ p * 2 ^ (kn + tp) := by ring
    rw [lhs, hNat]
    ring
  have hE1 : num * 2 ^ kp * 2 ^ tn = den * 2 ^ kn * (w * 2 ^ tp) :=
    Nat.eq_of_mul_eq_mul_right (Nat.pow_pos (by norm_num)) hE0
  -- t is nonnegative
  have htn0 : tn = 0 := by
    by_contra hcon
    have htp0 : tp = 0 := by omega
    rw [htp0] at hE1
    have l1 : den * 2 ^ kn * 2 ^ 52 * 2 ^ tn < num * 2 ^ kp * 2 ^ tn :=
      (Nat.mul_lt_mul_right (Nat.pow_pos (by norm_num))).mpr hNlow
    rw [hE1] at l1
    have l2 : den * 2 ^ kn * (w * 2 ^ 0) < den * 2 ^ kn * 2 ^ 53 := by
      have hpos : 0 < den * 2 ^ kn := by positivity
      refine (Nat.mul_lt_mul_left hpos).mpr ?_
      simpa using hw2
    have l3 : den * 2 ^ kn * 2 ^ 52 * 2 ^ tn < den * 2 ^ kn * 2 ^ 53 := by omega
    have l4 : den * 2 ^ kn * 2 ^ 52 * 2 ^ tn = den * 2 ^ kn * 2 ^ (52 + tn) := by
      ring
    rw [l4] at l3
    have l5 : (2 : ℕ) ^ (52 + tn) < 2 ^ 53 := by
      have hpos : 0 < den * 2 ^ kn := by positivity
      exact (Nat.mul_lt_mul_left hpos).mp l3
    have := pow_lt_pow_iff_exp.mp l5
    omega
  rw [htn0] at hE1
  simp only [pow_zero, Nat.mul_one] at hE1
  -- bounds on w * 2 ^ tp
  have hQlow : 2 ^ 52 < w * 2 ^ tp := by
    have hpos : 0 < den * 2 ^ kn := by positivity
    refine (Nat.mul_lt_mul_left hpos).mp ?_
    calc den * 2 ^ kn * 2 ^ 52 < num * 2 ^ kp := hNlow
      _ = den * 2 ^ kn * (w * 2 ^ tp) := hE1
  have hQhigh : w * 2 ^ tp < 2 ^ 54 := by
    have hpos : 0 < den * 2 ^ kn := by positivity
    refine (Nat.mul_lt_mul_left hpos).mp ?_
    calc den * 2 ^ kn * (w * 2 ^ tp) = num * 2 ^ kp := hE1.symm
      _ < den * 2 ^ kn * 2 ^ 54 := hNhigh
  have hres := roundCore_exact (den * 2 ^ kn) w tp (e - k)
    (by have h0 : 0 < den * 2 ^ kn := by positivity
        omega) hw1 hw2 hQlow hQhigh
  rw [show num * 2 ^ kp = den * 2 ^ kn * (w * 2 ^ tp) from hE1, hres]
  refine congrArg₂ Dy.mk rfl ?_
  omega
theorem dyOfNat_eq (w : ℕ) (h1 : 1 ≤ w) (h2 : w < 2 ^ 53) :
    dyOfNat w = ⟨w * 2 ^ (52 - nlog2 w), (0 : ℤ) - 52 + nlog2 w⟩ := by
  unfold dyOfNat
  exact roundRat_exact w 1 w 0 0 0 0 h1 le_rfl h1 h2 (by norm_num) (by ring)

theorem dyDiv_cancel1000 (w : ℕ) (h1 : 1 ≤ w) (h2 : 1000 * w < 2 ^ 53) :
    dyDiv (dyOfNat (1000 * w)) (dyOfNat 1000) = dyOfNat w := by
  have hLx : nlog2 (1000 * w) ≤ 52 := nlog2_le_of_lt (by omega) h2
  have hL9 : nlog2 1000 ≤ 52 := nlog2_le_of_lt (by norm_num) (by norm_num)
  rw [dyOfNat_eq (1000 * w) (by omega) h2, dyOfNat_eq 1000 (by norm_num) (by norm_num),
      dyOfNat_eq w h1 (by omega)]
  unfold dyDiv
  dsimp only []
  apply roundRat_exact _ _ w _ 0 (nlog2 (1000 * w)) (nlog2 1000)
  · have h0 : 0 < (2 : ℕ) ^ (52 - nlog2 (1000 * w)) := by positivity
    have : 0 < 1000 * w := by omega
    exact Nat.one_le_iff_ne_zero.mpr (by positivity)
  · have h0 : 0 < (2 : ℕ) ^ (52 - nlog2 1000) := by positivity
    exact Nat.one_le_iff_ne_zero.mpr (by positivity)
  · exact h1
  · omega
  · omega
  · calc 1000 * w * 2 ^ (52 - nlog2 (1000 * w)) * 2 ^ nlog2 (1000 * w)
        = 1000 * w * 2 ^ (52 - nlog2 (1000 * w) + nlog2 (1000 * w)) := by ring
      _ = 1000 * w * 2 ^ 52 := by rw [show 52 - nlog2 (1000 * w) + nlog2 (1000 * w) = 52 by omega]
      _ = 1000 * w * 2 ^ (52 - nlog2 1000 + nlog2 1000) := by
          rw [show 52 - nlog2 1000 + nlog2 1000 = 52 by omega]
      _ = 1000 * 2 ^ (52 - nlog2 1000) * (w * 2 ^ nlog2 1000) := by ring

theorem dyAdd_ofNat (a b : ℕ) (hb : 1 ≤ b) (hab : a + b < 2 ^ 53) :
    dyAdd (dyOfNat a) (dyOfNat b) = dyOfNat (a + b) := by
  rcases Nat.eq_zero_or_pos a with hz | hpos
  · subst hz
    have h0 : dyOfNat 0 = ⟨0, 0⟩ := by decide
    rw [h0]
    unfold dyAdd
    rw [if_pos rfl, Nat.zero_add]
  · have hLa : nlog2 a ≤ 52 := nlog2_le_of_lt hpos (by omega)
    have hLb : nlog2 b ≤ 52 := nlog2_le_of_lt hb (by omega)
    rw [dyOfNat_eq a hpos (by omega), dyOfNat_eq b hb (by omega),
        dyOfNat_eq (a + b) (by omega) hab]
    unfold dyAdd
    dsimp only []
    have hma : ¬ a * 2 ^ (52 - nlog2 a) = 0 := by
      have : 0 < (2 : ℕ) ^ (52 - nlog2 a) := by positivity
      positivity
    have hmb : ¬ b * 2 ^ (52 - nlog2 b) = 0 := by
      have : 0 < (2 : ℕ) ^ (52 - nlog2 b) := by positivity
      positivity
    rw [if_neg hma, if_neg hmb]
    rcases le_total (nlog2 a) (nlog2 b) with hord | hord
    · have hmn : min ((0 : ℤ) - 52 + nlog2 a) ((0 : ℤ) - 52 + nlog2 b)
          = (0 : ℤ) - 52 + nlog2 a := by omega
      rw [hmn]
      have e1 : (((0 : ℤ) - 52 + nlog2 a) - ((0 : ℤ) - 52 + nlog2 a)).toNat = 0 := by omega
      have e2 : (((0 : ℤ) - 52 + nlog2 b) - ((0 : ℤ) - 52 + nlog2 a)).toNat
          = nlog2 b - nlog2 a := by omega
      rw [e1, e2]
      have hN : a * 2 ^ (52 - nlog2 a) * 2 ^ 0
            + b * 2 ^ (52 - nlog2 b) * 2 ^ (nlog2 b - nlog2 a)
          = (a + b) * 2 ^ (52 - nlog2 a) := by
        have : b * 2 ^ (52 - nlog2 b) * 2 ^ (nlog2 b - nlog2 a)
            = b * 2 ^ (52 - nlog2 a) := by
          calc b * 2 ^ (52 - nlog2 b) * 2 ^ (nlog2 b - nlog2 a)
              = b * 2 ^ (52 - nlog2 b + (nlog2 b - nlog2 a)) := by ring
            _ = b * 2 ^ (52 - nlog2 a) := by
                rw [show 52 - nlog2 b + (nlog2 b - nlog2 a) = 52 - nlog2 a by omega]
        rw [this]
        ring
      rw [hN]
      apply roundRat_exact _ _ (a + b) _ 0 0 (52 - nlog2 a)
      · have h0 : 0 < (2 : ℕ) ^ (52 - nlog2 a) := by positivity
        exact Nat.one_le_iff_ne_zero.mpr (by positivity)
      · norm_num
      · omega
      · exact hab
      · omega
      · ring
    · have hmn : min ((0 : ℤ) - 52 + nlog2 a) ((0 : ℤ) - 52 + nlog2 b)
          = (0 : ℤ) - 52 + nlog2 b := by omega
      rw [hmn]
      have e1 : (((0 : ℤ) - 52 + nlog2 a) - ((0 : ℤ) - 52 + nlog2 b)).toNat
          = nlog2 a - nlog2 b := by omega
      have e2 : (((0 : ℤ) - 52 + nlog2 b) - ((0 : ℤ) - 52 + nlog2 b)).toNat = 0 := by omega
      rw [e1, e2]
      have hN : a * 2 ^ (52 - nlog2 a) * 2 ^ (nlog2 a - nlog2 b)
            + b * 2 ^ (52 - nlog2 b) * 2 ^ 0
          = (a + b) * 2 ^ (52 - nlog2 b) := by
        have : a * 2 ^ (52 - nlog2 a) * 2 ^ (nlog2 a - nlog2 b)
            = a * 2 ^ (52 - nlog2 b) := by
          calc a * 2 ^ (52 - nlog2 a) * 2 ^ (nlog2 a - nlog2 b)
              = a * 2 ^ (52 - nlog2 a + (nlog2 a - nlog2 b)) := by ring
            _ = a * 2 ^ (52 - nlog2 b) := by
                rw [show 52 - nlog2 a + (nlog2 a - nlog2 b) = 52 - nlog2 b by omega]
        rw [this]
        ring
      rw [hN]
      apply roundRat_exact _ _ (a + b) _ 0 0 (52 - nlog2 b)
      · have h0 : 0 < (2 : ℕ) ^ (52 - nlog2 b) := by positivity
        exact Nat.one_le_iff_ne_zero.mpr (by positivity)
      · norm_num
      · omega
      · exact hab
      · omega
      · ring

theorem range_map_getD (n i : ℕ) (f : ℕ → ℕ) (h : i < n) :
    ((List.range n).map f).getD i 0 = f i := by
  rw [List.getD_eq_getElem?_getD]
  simp [List.getElem?_map, List.getElem?_range h]

theorem range_map_headD (n : ℕ) (f : ℕ → ℕ) (h : 0 < n) :
    ((List.range n).map f).headD 0 = f 0 := by
  have h1 : ((List.range n).map f).headD 0 = ((List.range n).map f).getD 0 0 := by
    cases hcase : (List.range n).map f <;> simp [List.headD, List.getD, hcase]
  rw [h1]
  exact range_map_getD n 0 f h

theorem range_map_getLastD (n : ℕ) (f : ℕ → ℕ) (h : 0 < n) :
    ((List.range n).map f).getLastD 0 = f (n - 1) := by
  rw [List.getLastD_eq_getLast?, List.getLast?_eq_getElem?]
  have hl : ((List.range n).map f).length = n := by simp
  rw [hl]
  simp [List.getElem?_map, List.getElem?_range (show n - 1 < n by omega)]

theorem range_map_sorted (n : ℕ) (f : ℕ → ℕ) (hf : Monotone f) :
    List.Pairwise (fun a b => decide (a ≤ b) = true) ((List.range n).map f) := by
  rw [List.pairwise_map]
  apply List.Pairwise.imp _ (List.pairwise_lt_range n)
  intro a b hab
  simpa using hf (le_of_lt hab)

theorem range_map_sum_succ (n : ℕ) :
    ((List.range n).map (fun i => i + 1)).sum * 2 = n * (n + 1) := by
  induction n with
  | zero => simp
  | succ k ih =>
    rw [List.range_succ, List.map_append, List.sum_append]
    simp only [List.map_cons, List.map_nil, List.sum_cons, List.sum_nil, Nat.add_zero]
    calc (((List.range k).map fun i => i + 1).sum + (k + 1)) * 2
        = ((List.range k).map fun i => i + 1).sum * 2 + (k + 1) * 2 := by ring
      _ = k * (k + 1) + (k + 1) * 2 := by rw [ih]
      _ = (k + 1) * (k + 1 + 1) := by ring

theorem fold_dy (ws : List ℕ) :
    ∀ s : ℕ, (∀ w ∈ ws, 1 ≤ w ∧ 1000 * w < 2 ^ 53) → s + ws.sum < 2 ^ 53 →
    (ws.map (fun w => 1000 * w)).foldl
      (fun acc v => dyAdd acc (dyDiv (dyOfNat v) (dyOfNat 1000))) (dyOfNat s)
    = dyOfNat (s + ws.sum) := by
  induction ws with
  | nil => intro s _ _; simp
  | cons w rest ih =>
    intro s hmem hsum
    rw [List.map_cons, List.foldl_cons]
    have hw := hmem w (by simp)
    have hrest : 0 ≤ rest.sum := Nat.zero_le _
    have hsum2 : s + (w + rest.sum) < 2 ^ 53 := by
      simpa [List.sum_cons] using hsum
    have h1 : dyDiv (dyOfNat (1000 * w)) (dyOfNat 1000) = dyOfNat w :=
      dyDiv_cancel1000 w hw.1 hw.2
    rw [h1, dyAdd_ofNat s w hw.1 (by omega)]
    have := ih (s + w) (fun v hv => hmem v (by simp [hv])) (by omega)
    rw [this]
    rw [List.sum_cons]
    ring_nf


theorem c8_sorted_eq :
    ((snapshot 100000 (recordAll 100000 ((List.range 100000).map fun i => 1000 * (i + 1)))).mergeSort
      fun a b => decide (a ≤ b))
    = (List.range 100000).map fun i => 1000 * (i + 1) := by
  have hlen : ((List.range 100000).map fun i => 1000 * (i + 1)).length = 100000 := by simp
  have hsnap := (snapshot_recordAll 100000 ((List.range 100000).map fun i => 1000 * (i + 1))
    (by norm_num)).1 (le_of_eq hlen)
  rw [hsnap]
  exact List.mergeSort_of_sorted
    (range_map_sorted 100000 _ (fun a b hab => by show 1000 * (a + 1) ≤ 1000 * (b + 1); omega))

theorem c8_stats :
    computeStats 100000 (recordAll 100000 ((List.range 100000).map fun i => 1000 * (i + 1)))
    = ⟨100000, dyOfNat 1, dyOfNat 100000, ⟨100001 * 2 ^ 36, -37⟩,
       dyOfNat 50000, dyOfNat 95000, dyOfNat 99000, dyOfNat 99901, dyOfNat 99990⟩ := by
  set xs : List ℕ := (List.range 100000).map fun i => 1000 * (i + 1) with hxs
  have hlen : xs.length = 100000 := by simp [hxs]
  have hne : xs ≠ [] := by intro h; rw [h] at hlen; simp at hlen
  have hcount := (recordAll_spec 100000 (by norm_num) xs).1
  rw [hlen] at hcount
  have hp : ∀ p : Dy, ∀ t r : ℕ,
      dyCeil (dyMul (dyDiv p (dyOfNat 100)) (dyOfNat 100000)) = t →
      (0 < t ∧ t ≤ 100000) → t - 1 < 100000 → 1000 * (t - 1 + 1) = r →
      percentileD xs p = dyDiv (dyOfNat r) (dyOfNat 1000) := by
    intro p t r hceil ht hlt hr
    unfold percentileD
    rw [if_neg (by simp [List.isEmpty_iff, hne])]
    dsimp only []
    rw [hlen, hceil]
    rw [show (if t = 0 then 1 else t) = t from if_neg (by omega)]
    rw [if_neg (by omega : ¬ 100000 < t)]
    rw [range_map_getD 100000 (t - 1) _ hlt, hr]
  have h50 := hp (dyOfNat 50) 50000 50000000 (by decide) (by norm_num) (by norm_num) (by norm_num)
  have h95 := hp (dyOfNat 95) 95000 95000000 (by decide) (by norm_num) (by norm_num) (by norm_num)
  have h99 := hp (dyOfNat 99) 99000 99000000 (by decide) (by norm_num) (by norm_num) (by norm_num)
  have h999 := hp lit999 99901 99901000 (by decide) (by norm_num) (by norm_num) (by norm_num)
  have h9999 := hp lit9999 99990 99990000 (by decide) (by norm_num) (by norm_num) (by norm_num)
  have hhead : xs.headD 0 = 1000 := by
    have := range_map_headD 100000 (fun i => 1000 * (i + 1)) (by norm_num)
    simpa [hxs] using this
  have hlast : xs.getLastD 0 = 100000000 := by
    have := range_map_getLastD 100000 (fun i => 1000 * (i + 1)) (by norm_num)
    simpa [hxs] using this
  have hxs2 : xs = ((List.range 100000).map fun i => i + 1).map fun w => 1000 * w := by
    rw [hxs, List.map_map]
    rfl
  have hsum : ((List.range 100000).map fun i => i + 1).sum = 5000050000 := by
    have := range_map_sum_succ 100000
    omega
  have hmf : meanFold xs = dyOfNat 5000050000 := by
    unfold meanFold
    rw [hxs2, show (⟨0, 0⟩ : Dy) = dyOfNat 0 from by decide]
    rw [fold_dy ((List.range 100000).map fun i => i + 1) 0
      (by
        intro w hw
        simp only [List.mem_map, List.mem_range] at hw
        obtain ⟨i, hi, rfl⟩ := hw
        constructor <;> omega)
      (by rw [hsum]; norm_num)]
    rw [hsum]
  unfold computeStats
  rw [hcount, if_neg (by norm_num)]
  dsimp only []
  have hs2 : ((snapshot 100000 (recordAll 100000 xs)).mergeSort fun a b => decide (a ≤ b))
      = xs := by
    rw [hxs]
    exact c8_sorted_eq
  rw [hs2, hhead, hlast, hmf, hlen, h50, h95, h99, h999, h9999]
  decide


theorem dy_toRat_eval (m k : ℕ) (e : ℤ) (he : e = -(k : ℤ)) :
    (Dy.mk m e).toRat = (m : ℚ) / 2 ^ k := by
  unfold Dy.toRat
  rw [he, zpow_neg, zpow_natCast, div_eq_mul_inv]

theorem ideal_eval (p : ℚ) (t : ℕ)
    (hp : ⌈p * ((100000 : ℕ) : ℚ) / 100⌉ = (t : ℤ)) (h1 : 0 < t) (h2 : t ≤ 100000) :
    idealNearestRank ((List.range 100000).map fun i => 1000 * (i + 1)) p = t := by
  unfold idealNearestRank
  dsimp only []
  have hlen : ((List.range 100000).map fun i => 1000 * (i + 1)).length = 100000 := by simp
  rw [hlen, hp]
  rw [Int.toNat_natCast]
  rw [show min 100000 (max 1 t) = t by omega]
  rw [range_map_getD 100000 (t - 1) _ (by omega)]
  rw [show 1000 * (t - 1 + 1) = 1000 * t by omega]
  push_cast
  rw [mul_comm, mul_div_assoc]
  norm_num


/-- Claim C8 (counterexample to the claim as stated): on the
100 000-sample test `1 µs, 2 µs, …, 100 000 µs` the code reports
p99.9 = 99 901 µs, not the claimed 99 900 µs: the rank is computed in
double arithmetic, where `99.9 / 100.0 * 100000` rounds to slightly above
99 900, so `ceil` lands on index 99 901; the exact nearest-rank formula of
the claim yields 99 900 µs on the same input. -/
theorem c8_counterexample :
    (computeStats 100000
        (recordAll 100000 ((List.range 100000).map fun i => 1000 * (i + 1)))).p999_us
      = dyOfNat 99901 ∧
    (dyOfNat 99901).toRat = 99901 ∧
    dyOfNat 99901 ≠ dyOfNat 99900 ∧
    idealNearestRank ((List.range 100000).map fun i => 1000 * (i + 1)) (999 / 10) = 99900 := by
  refine ⟨?_, ?_, by decide, ?_⟩
  · rw [c8_stats]
  · rw [show dyOfNat 99901 = ⟨99901 * 2 ^ 36, -((36 : ℕ) : ℤ)⟩ from by decide]
    rw [dy_toRat_eval _ 36 _ rfl]
    push_cast
    norm_num
  · exact ideal_eval (999 / 10) 99900 (by push_cast; norm_num) (by norm_num) (by norm_num)

/-- Claim C8 (amended): percentiles are nearest-rank with the rank
`p / 100.0 * n` computed in double arithmetic before `ceil`; on the
100 000-sample test `1 µs, 2 µs, …, 100 000 µs` the snapshot yields
min = 1 µs, max = 100 000 µs, mean = 50 000.5 µs, p50 = 50 000 µs,
p95 = 95 000 µs, p99 = 99 000 µs, p99.99 = 99 990 µs as claimed, but
p99.9 = 99 901 µs (the claimed 99 900 µs is what the exact formula
gives, and the exact formula agrees with the code on the other four
percentiles of this input). -/
theorem c8_amended :
    computeStats 100000 (recordAll 100000 ((List.range 100000).map fun i => 1000 * (i + 1)))
      = ⟨100000, dyOfNat 1, dyOfNat 100000, ⟨100001 * 2 ^ 36, -37⟩,
         dyOfNat 50000, dyOfNat 95000, dyOfNat 99000, dyOfNat 99901, dyOfNat 99990⟩ ∧
    (dyOfNat 1).toRat = 1 ∧
    (dyOfNat 100000).toRat = 100000 ∧
    (Dy.mk (100001 * 2 ^ 36) (-37)).toRat = 100001 / 2 ∧
    (dyOfNat 50000).toRat = 50000 ∧
    (dyOfNat 95000).toRat = 95000 ∧
    (dyOfNat 99000).toRat = 99000 ∧
    (dyOfNat 99901).toRat = 99901 ∧
    (dyOfNat 99990).toRat = 99990 ∧
    idealNearestRank ((List.range 100000).map fun i => 1000 * (i + 1)) 50 = 50000 ∧
    idealNearestRank ((List.range 100000).map fun i => 1000 * (i + 1)) 95 = 95000 ∧
    idealNearestRank ((List.range 100000).map fun i => 1000 * (i + 1)) 99 = 99000 ∧
    idealNearestRank ((List.range 100000).map fun i => 1000 * (i + 1)) (9999 / 100) = 99990 := by
  have hrat : ∀ n k : ℕ, dyOfNat n = ⟨n * 2 ^ (52 - k), -((52 : ℕ) - k : ℤ)⟩ →
      52 - (k : ℤ) = ((52 - k : ℕ) : ℤ) → (dyOfNat n).toRat = n := by
    intro n k h hk
    rw [h, dy_toRat_eval _ (52 - k) _ (by omega)]
    push_cast
    norm_num
  refine ⟨c8_stats, ?_, hrat 100000 16 (by decide) (by norm_num), ?_,
    hrat 50000 15 (by decide) (by norm_num), hrat 95000 16 (by decide) (by norm_num),
    hrat 99000 16 (by decide) (by norm_num),
    hrat 99901 16 (by decide) (by norm_num), hrat 99990 16 (by decide) (by norm_num),
    ?_, ?_, ?_, ?_⟩
  · rw [show dyOfNat 1 = ⟨2 ^ 52, -((52 : ℕ) : ℤ)⟩ from by decide]
    rw [dy_toRat_eval _ 52 _ rfl]
    push_cast
    norm_num
  · rw [dy_toRat_eval _ 37 _ (by norm_num)]
    push_cast
    norm_num
  · exact ideal_eval 50 50000 (by push_cast; norm_num) (by norm_num) (by norm_num)
  · exact ideal_eval 95 95000 (by push_cast; norm_num) (by norm_num) (by norm_num)
  · exact ideal_eval 99 99000 (by push_cast; norm_num) (by norm_num) (by norm_num)
  · exact ideal_eval (9999 / 100) 99990 (by push_cast; norm_num) (by norm_num) (by norm_num)

end AgentTeam
